import Mathlib

set_option maxHeartbeats 2000000
set_option maxRecDepth 4000

/- A shallow embedding of the PNG and WebP chunk editing code of the
   repository (src/png.rs and src/webp.rs), together with theorems about
   its observable behaviour.

   Modelling conventions:
   - a file on disk is a list of bytes (each a Nat, < 256 for real files);
   - an open file handle is a byte list plus a cursor position;
   - Rust reads into a fixed size zeroed buffer: the model returns the
     buffer (zero padded past end of file) together with the number of
     bytes actually read, and advances the cursor by that number;
   - machine integer arithmetic is Nat with explicit reduction mod 2^32
     (u32) or 2^64 (usize), matching release mode wrapping semantics;
   - Rust panics (unwrap of an Err value, todo) are modelled by the
     distinguished error value RE.crash, which no caller ever catches;
   - chunk names and error messages are kept as raw byte lists and
     structured tags; string formatting is not re-modelled.  Lowercasing
     is byte wise ASCII lowercasing (the names compared in the source are
     ASCII fourCCs). -/

abbrev Disk := List Nat

structure FS where
  bytes : Disk
  pos   : Nat
deriving Repr, DecidableEq

/-- Rust `file.read(&mut buf)` for a fixed `n`-byte zeroed buffer: returns
the filled buffer (always of length `n`, zero padded beyond end of file),
the number of bytes actually read, and the advanced handle. -/
def fsRead (s : FS) (n : Nat) : List Nat × Nat × FS :=
  let avail := (s.bytes.drop s.pos).take n
  (avail ++ List.replicate (n - avail.length) 0, avail.length,
   ⟨s.bytes, s.pos + avail.length⟩)

/-- Rust `file.read_to_end(&mut buf)`: all bytes from the cursor onward. -/
def fsReadToEnd (s : FS) : List Nat × FS :=
  let r := s.bytes.drop s.pos
  (r, ⟨s.bytes, s.pos + r.length⟩)

/-- Rust `file.seek(SeekFrom::Start(k))`. -/
def fsSeekStart (s : FS) (k : Nat) : FS := ⟨s.bytes, k⟩

/-- Rust `file.seek(SeekFrom::Current(k))` for the non-negative offsets
used by this code. -/
def fsSeekCur (s : FS) (k : Nat) : FS := ⟨s.bytes, s.pos + k⟩

/-- Rust `file.write_all(&data)` at the cursor: overwrites in place,
extending the file when writing past its end (zero filling any gap left
by a seek beyond the end).  Writing an empty buffer changes nothing. -/
def fsWriteAll (s : FS) (data : List Nat) : FS :=
  if data = [] then s
  else
    ⟨(s.bytes.take s.pos ++ List.replicate (s.pos - s.bytes.length) 0)
       ++ data ++ s.bytes.drop (s.pos + data.length),
     s.pos + data.length⟩

/-- Rust `file.set_len(n)`: truncates, or zero extends past the end. -/
def fsSetLen (s : FS) (n : Nat) : FS :=
  ⟨s.bytes.take n ++ List.replicate (n - s.bytes.length) 0, s.pos⟩

/-- Wrapping u32 subtraction (release mode semantics). -/
def sub32 (a b : Nat) : Nat := (a + (2 ^ 32 - b % 2 ^ 32)) % 2 ^ 32

/-- Wrapping u64 subtraction (release mode semantics). -/
def sub64 (a b : Nat) : Nat := (a + (2 ^ 64 - b % 2 ^ 64)) % 2 ^ 64

/-- Modelled from the spec: little-endian u32 decoding of a 4-byte buffer
(the endian module of the repository is not under src). -/
def leU32 (b : List Nat) : Nat :=
  b.getD 0 0 + 256 * (b.getD 1 0 + 256 * (b.getD 2 0 + 256 * b.getD 3 0))

/-- Modelled from the spec: little-endian u32 encoding into 4 bytes. -/
def leBytes (n : Nat) : List Nat :=
  [n % 256, n / 256 % 256, n / 256 ^ 2 % 256, n / 256 ^ 3 % 256]

/-- Big-endian byte extraction `(n >> (8*(3-i))) as u8`, i = 0..3, as
performed literally by the source when writing u32 fields and comparing
CRC values. -/
def beBytes (n : Nat) : List Nat :=
  [n / 256 ^ 3 % 256, n / 256 ^ 2 % 256, n / 256 % 256, n % 256]

/-- The big-endian length fold of src/png.rs lines 78-82:
`chunk_length = chunk_length * 256 + byte`. -/
def beFold (l : List Nat) : Nat := l.foldl (fun a b => a * 256 + b) 0

/-- Byte wise ASCII lowercasing, modelling `str::to_lowercase` on the
ASCII fourCC names this code compares. -/
def lowByte (b : Nat) : Nat := if 65 ≤ b ∧ b ≤ 90 then b + 32 else b

def lowName (l : List Nat) : List Nat := l.map lowByte

/-- The UTF-8 leading byte classes: for a non-ASCII leading byte,
the number of continuation bytes and the admissible range of the first
one (the remaining continuation bytes must lie in 0x80-0xBF). -/
def utf8Class (b : Nat) : Option (Nat × Nat × Nat) :=
  if 0xC2 ≤ b ∧ b ≤ 0xDF then some (1, 0x80, 0xBF)
  else if b = 0xE0 then some (2, 0xA0, 0xBF)
  else if (0xE1 ≤ b ∧ b ≤ 0xEC) ∨ b = 0xEE ∨ b = 0xEF then some (2, 0x80, 0xBF)
  else if b = 0xED then some (2, 0x80, 0x9F)
  else if b = 0xF0 then some (3, 0x90, 0xBF)
  else if 0xF1 ≤ b ∧ b ≤ 0xF3 then some (3, 0x80, 0xBF)
  else if b = 0xF4 then some (3, 0x80, 0x8F)
  else none

/-- Byte wise UTF-8 scanner: `k` pending continuation bytes, the first
of which must lie in `lo..hi`. -/
def utf8Scan : List Nat → Nat → Nat → Nat → Bool
  | [], k, _, _ => k == 0
  | c :: r, 0, _, _ =>
    if c < 0x80 then utf8Scan r 0 0 0
    else
      match utf8Class c with
      | none => false
      | some (k, lo, hi) => utf8Scan r k lo hi
  | c :: r, k + 1, lo, hi =>
    if lo ≤ c ∧ c ≤ hi then utf8Scan r k 0x80 0xBF else false

/-- UTF-8 validity of a byte list, modelling `String::from_utf8`
succeeding (used on the 4 fourCC bytes of every chunk). -/
def validUtf8 (l : List Nat) : Bool := utf8Scan l 0 0 0

/-- The `iter().zip().filter().count()` pattern both signature checks use. -/
def countMatches (a b : List Nat) : Nat :=
  ((a.zip b).filter (fun p => p.1 == p.2)).length

/- ----------------------- error model ----------------------- -/

/-- The `std::io::ErrorKind` values this code constructs or inspects. -/
inductive EK where
  | notFound | invalidData | unexpectedEof | eOther
deriving Repr, DecidableEq

/-- One tag per distinct error construction site of the source, holding
the data interpolated into the original message where a later match
depends on it. -/
inductive ETag where
  -- webp.rs
  | riffSig | promisedByteCount | webpSig
  | chunkStart | chunkData | badFourCC
  | firstChunkNotVP8X (hdr : List Nat) | noFirstChunk
  | cantReadFlags | noExifFlag
  | cantReadChunkType | unexpectedChunkType (expected got : List Nat)
  | convertExpected | convertTodo | vp8lWidthHeight
  -- png.rs (String-typed errors in the source)
  | pngNoFile | pngBadSignature
  | pngChunkStart | pngChunkData | pngChunkCrc | pngChecksum
  | pngNextChunk | pngClearFailed | pngWriteFailed
deriving Repr, DecidableEq

/-- Errors: `io` models `std::io::Error` values (webp.rs), `str` models
the `String` errors of png.rs, `crash` models a Rust panic (unwrap of an
Err, todo) and is never caught. -/
inductive RE where
  | io (k : EK) (t : ETag)
  | str (t : ETag)
  | crash
deriving Repr, DecidableEq

deriving instance DecidableEq for Except

/-- Result of a subroutine operating on an open handle: value or error,
together with the handle state (mutations persist even on error). -/
inductive RSt (α : Type) where
  | ok (a : α) (s : FS)
  | err (e : RE) (s : FS)
deriving Repr, DecidableEq

/- ----------------------- constants ----------------------- -/

def RIFF_SIGNATURE : List Nat := [0x52, 0x49, 0x46, 0x46]
def WEBP_SIGNATURE : List Nat := [0x57, 0x45, 0x42, 0x50]
/-- fourCC bytes of VP8X. -/
def VP8X_NAME : List Nat := [0x56, 0x50, 0x38, 0x58]
/-- fourCC bytes of EXIF. -/
def EXIF_NAME : List Nat := [0x45, 0x58, 0x49, 0x46]
/-- The byte rendering of the string VP8L, as interpolated into the
first-chunk error message matched by clear_metadata. -/
def VP8L_NAME : List Nat := [0x56, 0x50, 0x38, 0x4C]
/-- Modelled from the spec: the 6 byte EXIF marker sequence prefixed to
the payload returned by read_metadata (EXIF_HEADER of general_file_io,
which is not under src). -/
def EXIF_HEADER : List Nat := [0x45, 0x78, 0x69, 0x66, 0x00, 0x00]

def PNG_SIGNATURE : List Nat := [0x89, 0x50, 0x4E, 0x47, 0x0D, 0x0A, 0x1A, 0x0A]

def RAW_PROFILE_TYPE_EXIF : List Nat :=
  [0x52, 0x61, 0x77, 0x20,
   0x70, 0x72, 0x6F, 0x66, 0x69, 0x6C, 0x65, 0x20,
   0x74, 0x79, 0x70, 0x65, 0x20,
   0x65, 0x78, 0x69, 0x66, 0x00, 0x00]

/-- fourCC bytes of zTXt. -/
def ZTXT_NAME : List Nat := [0x7A, 0x54, 0x58, 0x74]
/-- fourCC bytes of IEND. -/
def IEND_NAME : List Nat := [0x49, 0x45, 0x4E, 0x44]
/-- fourCC bytes of IHDR. -/
def IHDR_NAME : List Nat := [0x49, 0x48, 0x44, 0x52]

/- ----------------------- webp.rs ----------------------- -/

/-- Modelled from the spec / riff_chunk module (not under src): a parsed
RIFF chunk with fourCC name, recorded (even padded) length, and payload. -/
structure RiffChunk where
  name : List Nat
  size : Nat
  payload : List Nat
deriving Repr, DecidableEq

/-- Modelled from the spec: the payload free descriptor of a RiffChunk. -/
structure RiffChunkDescriptor where
  name : List Nat
  size : Nat
deriving Repr, DecidableEq

def RiffChunk.descriptor (c : RiffChunk) : RiffChunkDescriptor :=
  ⟨c.name, c.size⟩

/-- webp.rs check_signature.  Note the source's condition
`!buf.iter().zip(SIG).filter(..).count() == SIG.len()` applies the usize
bitwise NOT to the count before the comparison, so the two signature
comparisons can never fail; the model reproduces this faithfully
(`2^64 - 1 - count = 4` is the usize value of `!count == 4`). -/
def checkSignatureW (d : Disk) : Except RE FS :=
  let s0 : FS := ⟨d, 0⟩
  let r1 := fsRead s0 4
  if 2 ^ 64 - 1 - countMatches r1.1 RIFF_SIGNATURE = 4 then
    .error (.io .invalidData .riffSig)
  else
    let r2 := fsRead r1.2.2 4
    let byteCount := leU32 r2.1
    if r2.2.2.bytes.length ≠ (byteCount + 8) % 2 ^ 32 then
      .error (.io .invalidData .promisedByteCount)
    else
      let r3 := fsRead r2.2.2 4
      if 2 ^ 64 - 1 - countMatches r3.1 WEBP_SIGNATURE = 4 then
        .error (.io .invalidData .webpSig)
      else
        .ok r3.2.2

/-- webp.rs get_next_chunk. -/
def getNextChunkW (s : FS) : RSt RiffChunk :=
  let r1 := fsRead s 8
  if r1.2.1 ≠ 8 then .err (.io .unexpectedEof .chunkStart) r1.2.2
  else
    let nameB := r1.1.take 4
    let len0 := leU32 (r1.1.drop 4)
    -- chunk_length += chunk_length % 2  (u32 wrapping)
    let len := (len0 + len0 % 2) % 2 ^ 32
    let r2 := fsRead r1.2.2 len
    if r2.2.1 ≠ len then .err (.io .eOther .chunkData) r2.2.2
    else if validUtf8 nameB then .ok ⟨nameB, len, r2.1⟩ r2.2.2
    else .err (.io .eOther .badFourCC) r2.2.2

/-- webp.rs get_next_chunk_descriptor. -/
def getNextChunkDescW (s : FS) : RSt RiffChunkDescriptor :=
  match getNextChunkW s with
  | .ok c s' => .ok c.descriptor s'
  | .err e s' => .err e s'


/-- The chunk walking loop of webp.rs parse_webp.  The loop is given as
structural recursion on a fuel argument; callers pass
`s.bytes.length + 1`, which can never run out because every iteration
consumes at least 8 bytes of the file, so the fuel-exhausted branch is
unreachable. -/
def parseWebpLoop : Nat → FS → Nat → Nat → List RiffChunkDescriptor →
    RSt (List RiffChunkDescriptor)
  | 0, s, _, _, _ => .err .crash s   -- unreachable
  | fuel + 1, s, expected, parsed, acc =>
    match getNextChunkDescW s with
    | .ok c s' =>
      if parsed + 4 + 4 + c.size = expected then .ok (acc ++ [c]) s'
      else parseWebpLoop fuel s' expected (parsed + 4 + 4 + c.size)
        (acc ++ [c])
    | .err e s' =>
      match e with
      | .io .unexpectedEof _ => .ok acc s'
      | e => .err e s'

/-- webp.rs parse_webp. -/
def parseWebp (d : Disk) : Except RE (List RiffChunkDescriptor) :=
  match checkSignatureW d with
  | .error e => .error e
  | .ok s =>
    match parseWebpLoop (s.bytes.length + 1) s s.bytes.length 12 [] with
    | .ok cs _ => .ok cs
    | .err e _ => .error e

/-- webp.rs check_exif_in_file. -/
def checkExifInFile (d : Disk) :
    Except RE (FS × List RiffChunkDescriptor) :=
  match parseWebp d with
  | .error e => .error e
  | .ok cs =>
    match cs.head? with
    | none => .error (.io .eOther .noFirstChunk)
    | some c0 =>
      if lowName c0.name ≠ lowName VP8X_NAME then
        .error (.io .eOther (.firstChunkNotVP8X c0.name))
      else
        match checkSignatureW d with
        | .error _ => .error .crash   -- .unwrap() of an Err panics
        | .ok file =>
          let s1 := fsSeekStart file (12 + 4 + 4)
          let r := fsRead s1 4
          if r.2.1 ≠ 4 then .error (.io .eOther .cantReadFlags)
          else if r.1.getD 0 0 &&& 0x08 ≠ 0x08 then
            .error (.io .eOther .noExifFlag)
          else .ok (r.2.2, cs)

/-- The chunk visiting loop of webp.rs read_metadata (fuel as in
parseWebpLoop: every iteration consumes at least 4 bytes). -/
def readMetadataLoop : Nat → FS → List RiffChunkDescriptor → Nat →
    Except RE (List Nat)
  | 0, _, _, _ => .error .crash   -- unreachable
  | fuel + 1, s, cs, idx =>
    let r := fsRead s 4
    if r.2.1 ≠ 4 then .error (.io .eOther .cantReadChunkType)
    else
      let chunkType := r.1
      match cs.get? idx with
      | none => .error .crash   -- .nth(..).unwrap() panics past the end
      | some expected =>
        if chunkType ≠ expected.name then
          .error (.io .eOther (.unexpectedChunkType expected.name chunkType))
        else
          let size := expected.size
          let s2 := fsSeekCur r.2.2 4
          if lowName chunkType = lowName EXIF_NAME then
            .ok (EXIF_HEADER ++ (fsRead s2 size).1)
          else
            let s3 := fsSeekCur s2 size
            let s4 := if size % 2 = 1 then fsSeekCur s3 1 else s3
            readMetadataLoop fuel s4 cs (idx + 1)

/-- webp.rs read_metadata.  The source unwraps the check_exif_in_file
result (line 311), so any failure there is a panic, not an error return. -/
def readMetadataW (d : Disk) : Except RE (List Nat) :=
  match checkExifInFile d with
  | .error _ => .error .crash
  | .ok (file, cs) =>
    readMetadataLoop (file.bytes.length + 1) (fsSeekStart file 12) cs 0

/-- webp.rs convert_VP8L_to_VP8X: reads the width/height word, prints it,
then hits todo!() - a guaranteed panic when the read succeeds. -/
def convertVP8LtoVP8X (s : FS) : RSt Unit :=
  let s1 := fsSeekStart s (4 + 4 + 4 + 4 + 4 + 1)
  let r := fsRead s1 4
  if r.2.1 ≠ 4 then .err (.io .eOther .vp8lWidthHeight) r.2.2
  else .err .crash r.2.2   -- width/height are computed, printed, then todo

/-- webp.rs convert_to_extended_format.  The first match arm compares the
4 byte header string against the 3 character literal VP8 (no trailing
space), which can never match a fourCC; it is kept faithfully. -/
def convertToExtendedFormat (s : FS) : RSt Unit :=
  match getNextChunkW (fsSeekStart s 12) with
  | .err e s' => .err e s'
  | .ok c s' =>
    if c.name = [0x56, 0x50, 0x38] then .err (.io .eOther .convertTodo) s'
    else if c.name = VP8L_NAME then convertVP8LtoVP8X s'
    else .err (.io .eOther .convertExpected) s'

/-- The flag read/mask/write tail of webp.rs set_exif_flag. -/
def setFlagWrite (file : FS) (v : Bool) : Except RE Unit × Disk :=
  let s1 := fsSeekStart file (12 + 4 + 4)
  let r := fsRead s1 4
  if r.2.1 ≠ 4 then (.error (.io .eOther .cantReadFlags), r.2.2.bytes)
  else
    let b0 := if v then r.1.getD 0 0 ||| 0x08 else r.1.getD 0 0 &&& 0xF7
    let s3 := fsWriteAll (fsSeekStart r.2.2 (12 + 4 + 4)) (b0 :: r.1.drop 1)
    (.ok (), s3.bytes)

/-- webp.rs set_exif_flag. -/
def setExifFlag (d : Disk) (v : Bool) : Except RE Unit × Disk :=
  match parseWebp d with
  | .error e => (.error e, d)
  | .ok cs =>
    match checkSignatureW d with
    | .error _ => (.error .crash, d)   -- .unwrap() of an Err panics
    | .ok file =>
      match cs.head? with
      | none => (.error (.io .eOther .noFirstChunk), d)
      | some c0 =>
        if lowName c0.name ≠ lowName VP8X_NAME then
          match convertToExtendedFormat file with
          | .err e s' => (.error e, s'.bytes)
          | .ok _ s' => setFlagWrite s' v
        else setFlagWrite file v

/-- The chunk removal loop of webp.rs clear_metadata, iterating over the
descriptors of the pre-mutation parse. -/
def clearLoopW (s : FS) (newSize : Nat) :
    List RiffChunkDescriptor → FS × Nat
  | [] => (s, newSize)
  | c :: rest =>
    let bc := 4 + 4 + c.size + c.size % 2
    if lowName c.name ≠ lowName EXIF_NAME then
      clearLoopW (fsSeekCur s bc) newSize rest
    else
      let oldLen := s.bytes.length
      let cur := s.pos
      let s1 := fsSeekCur s bc
      let rd := fsReadToEnd s1
      let s3 := fsWriteAll (fsSeekStart rd.2 cur) rd.1
      let s4 := fsSetLen s3 (sub64 oldLen bc)
      clearLoopW s4 (sub32 newSize bc) rest

/-- webp.rs clear_metadata. -/
def clearMetadataW (d : Disk) : Except RE Unit × Disk :=
  match checkExifInFile d with
  | .error e =>
    -- the source matches on the error message text; the two handled
    -- messages correspond to the noExifFlag tag and to the
    -- firstChunkNotVP8X tag rendered with the header string VP8L
    match e with
    | .io .eOther .noExifFlag => (.ok (), d)
    | .io .eOther (.firstChunkNotVP8X n) =>
      if n = VP8L_NAME then (.ok (), d) else (.error e, d)
    | _ => (.error e, d)
  | .ok (file, cs) =>
    let s0 := fsSeekStart file 4
    let r := fsRead s0 4
    let newSize := leU32 r.1
    let s2 := fsSeekCur r.2.2 4
    let res := clearLoopW s2 newSize cs
    let s4 := fsWriteAll (fsSeekStart res.1 4) (leBytes res.2)
    match setExifFlag s4.bytes false with
    | (.ok _, d') => (.ok (), d')
    | (.error e, d') => (.error e, d')

/-- webp.rs encode_metadata_webp. -/
def encodeMetadataWebp (m : List Nat) : List Nat :=
  let length := m.length % 2 ^ 32
  EXIF_NAME ++ leBytes length ++ m
    ++ (if length % 2 ≠ 0 then [0x00] else [])

/-- The allow list of chunks that may precede the EXIF chunk in
webp.rs write_metadata.  Note the literal VP8 has no trailing space, so
it can never equal a 4 byte fourCC. -/
def preExifChunks : List (List Nat) :=
  [VP8X_NAME, [0x56, 0x50, 0x38], VP8L_NAME,
   [0x49, 0x43, 0x43, 0x50], [0x41, 0x4E, 0x49, 0x4D]]

/-- The insertion point search loop of webp.rs write_metadata.  On the
break for a chunk outside the allow list the cursor has already consumed
that chunk.  Fuel as in parseWebpLoop. -/
def writeInsertLoop : Nat → FS → RSt Unit
  | 0, s => .err .crash s   -- unreachable
  | fuel + 1, s =>
    match getNextChunkDescW s with
    | .ok c s' =>
      if preExifChunks.any (fun p => lowName p == lowName c.name) then
        writeInsertLoop fuel s'
      else .ok () s'
    | .err e s' =>
      match e with
      | .io .unexpectedEof _ => .ok () s'
      | e => .err e s'

/-- The tail of webp.rs write_metadata after the insertion point has
been found: buffer the remainder, write the encoded chunk and the
remainder, patch the size field, set the EXIF flag. -/
def writeTailW (s' : FS) (encoded : List Nat) : Except RE Unit × Disk :=
  let rd := fsReadToEnd s'
  let s3 := fsWriteAll (fsSeekStart rd.2 s'.pos) encoded
  let s4 := fsWriteAll s3 rd.1
  let s5 := fsSeekStart s4 4
  let r := fsRead s5 4
  let fileSize := (leU32 r.1 + encoded.length % 2 ^ 32) % 2 ^ 32
  let s7 := fsWriteAll (fsSeekStart r.2.2 4) (leBytes fileSize)
  setExifFlag s7.bytes true

/-- webp.rs write_metadata. -/
def writeMetadataW (d : Disk) (m : List Nat) : Except RE Unit × Disk :=
  match clearMetadataW d with
  | (.error e, d') => (.error e, d')
  | (.ok _, d1) =>
    let encoded := encodeMetadataWebp m
    match checkSignatureW d1 with
    | .error e => (.error e, d1)
    | .ok file =>
      match writeInsertLoop (file.bytes.length + 1) file with
      | .err e s' => (.error e, s'.bytes)
      | .ok _ s' =>
        match writeTailW s' encoded with
        | (.ok _, d2) => (.ok (), d2)
        | (.error e, d2) => (.error e, d2)

/- ----------------------- png.rs ----------------------- -/

/-- Modelled from the spec: one step of the reflected CRC-32/ISO-HDLC
bit loop (the crc crate is an external collaborator; the spec names the
ISO-HDLC polynomial, whose reflected form is 0xEDB88320). -/
def crcStep (r : Nat) : Nat :=
  if r % 2 = 1 then (r / 2) ^^^ 0xEDB88320 else r / 2

/-- n-fold iteration of crcStep. -/
def crcSteps : Nat → Nat → Nat
  | 0, r => r
  | n + 1, r => crcSteps n (crcStep r)

/-- Absorb one message byte into the CRC state. -/
def crcByte (r b : Nat) : Nat := crcSteps 8 (r ^^^ b)

/-- Absorb a message into the CRC state. -/
def crcAbsorb (r : Nat) (l : List Nat) : Nat := l.foldl crcByte r

/-- Modelled from the spec: CRC-32/ISO-HDLC of a byte list
(init 0xFFFFFFFF, reflected, xorout 0xFFFFFFFF). -/
def crc32 (l : List Nat) : Nat := crcAbsorb 0xFFFFFFFF l ^^^ 0xFFFFFFFF

/-- Modelled from the spec: the descriptor produced by
PngChunk::from_string (png_chunk module not under src): fourCC name and
payload length, as used by png.rs. -/
structure PngChunk where
  name : List Nat
  length : Nat
deriving Repr, DecidableEq

/-- png.rs check_signature.  Note: the PNG file is opened READ-ONLY
(`OpenOptions::new().read(true)`), so later writes through this handle
fail; see fsWriteAllRO below. -/
def checkSignatureP (d : Disk) : Except RE FS :=
  let s0 : FS := ⟨d, 0⟩
  let r := fsRead s0 8
  if countMatches r.1 PNG_SIGNATURE ≠ 8 then .error (.str .pngBadSignature)
  else .ok r.2.2

/-- `file.write_all(&buffer);` with the Result discarded, on the
read-only handle png.rs check_signature returns: the write fails with an
io error before writing anything, the error is ignored by the source, and
the file and cursor are unchanged. -/
def fsWriteAllRO (s : FS) (_data : List Nat) : FS := s

/-- png.rs get_next_chunk_descriptor. -/
def getNextChunkDescP (s : FS) : RSt PngChunk :=
  let r1 := fsRead s 8
  if r1.2.1 ≠ 8 then .err (.str .pngChunkStart) r1.2.2
  else
    let nameB := r1.1.drop 4
    let len := beFold (r1.1.take 4)
    let r2 := fsRead r1.2.2 len
    if r2.2.1 ≠ len then .err (.str .pngChunkData) r2.2.2
    else
      let r3 := fsRead r2.2.2 4
      if r3.2.1 ≠ 4 then .err (.str .pngChunkCrc) r3.2.2
      else
        let checksum := crc32 (nameB ++ r2.1)
        if beBytes checksum ≠ r3.1 then .err (.str .pngChecksum) r3.2.2
        else if validUtf8 nameB then .ok ⟨nameB, len⟩ r3.2.2
        else .err .crash r3.2.2   -- chunk_name.unwrap() panics

/-- The chunk walking loop of png.rs parse_png.  Fuel as in
parseWebpLoop: every iteration consumes at least 12 bytes.  Any walker
error other than a panic is replaced by the generic message
`Could not read next chunk` (tag pngNextChunk). -/
def parsePngLoop : Nat → FS → List PngChunk → RSt (List PngChunk)
  | 0, s, _ => .err .crash s   -- unreachable
  | fuel + 1, s, acc =>
    match getNextChunkDescP s with
    | .ok c s' =>
      if c.name = IEND_NAME then .ok (acc ++ [c]) s'
      else parsePngLoop fuel s' (acc ++ [c])
    | .err .crash s' => .err .crash s'
    | .err _ s' => .err (.str .pngNextChunk) s'

/-- png.rs parse_png. -/
def parsePng (d : Disk) : Except RE (List PngChunk) :=
  match checkSignatureP d with
  | .error e => .error e
  | .ok s =>
    match parsePngLoop (s.bytes.length + 1) s [] with
    | .ok cs _ => .ok cs
    | .err e _ => .error e

/-- The chunk scanning loop of png.rs clear_metadata_from_png, kept
faithful to the source: the seek counter starts at 0 although the cursor
starts at 8, and the overwrite goes through the read-only handle, so it
has no effect (fsWriteAllRO). -/
def clearLoopP (s : FS) (seekCounter : Nat) : List PngChunk → FS
  | [] => s
  | c :: rest =>
    if c.name = ZTXT_NAME then
      let s1 := fsSeekCur s (c.length + 12)
      let rd := fsReadToEnd s1
      let s3 := fsWriteAllRO (fsSeekStart rd.2 seekCounter) rd.1
      let s4 := fsSeekStart s3 seekCounter
      clearLoopP s4 seekCounter rest
    else
      clearLoopP (fsSeekCur s (c.length + 12)) (seekCounter + c.length + 12)
        rest

/-- png.rs clear_metadata_from_png. -/
def clearMetadataP (d : Disk) : Except RE Unit × Disk :=
  match parsePng d with
  | .error .crash => (.error .crash, d)
  | .error _ => (.error (.str .pngClearFailed), d)
  | .ok cs =>
    match checkSignatureP d with
    | .error _ => (.error .crash, d)   -- .unwrap() of an Err panics
    | .ok file =>
      let s := clearLoopP file 0 cs
      (.ok (), s.bytes)

/-- The body of png.rs write_metadata_to_png after the IHDR length has
been determined: the file is reopened read+write at cursor 0, so these
writes are effective.  `defl` is the external deflate_bytes_zlib
collaborator, taken as a parameter. -/
def writeCoreP (defl : List Nat → List Nat) (d1 : Disk) (ihdrLen : Nat)
    (m : List Nat) : Except RE Unit × Disk :=
  let s : FS := ⟨d1, 0⟩
  let seekStart := 8 + ihdrLen + 12
  let rd := fsReadToEnd (fsSeekStart s seekStart)
  let s2 := fsSeekStart rd.2 seekStart
  let body := ZTXT_NAME ++ RAW_PROFILE_TYPE_EXIF ++ defl m
  let chunk := body ++ beBytes (crc32 body)
  let lenField := sub32 (chunk.length % 2 ^ 32) 8
  let s3 := fsWriteAll s2 (beBytes lenField)
  let s4 := fsWriteAll s3 chunk
  let s5 := fsWriteAll s4 rd.1
  (.ok (), s5.bytes)

/-- png.rs write_metadata_to_png.  The IHDR length is taken from the
first chunk of a fresh parse when that parse succeeds (chunks[0] panics
on an empty list), and stays 0 when the parse fails. -/
def writeMetadataP (defl : List Nat → List Nat) (d : Disk)
    (m : List Nat) : Except RE Unit × Disk :=
  match clearMetadataP d with
  | (.error .crash, d') => (.error .crash, d')
  | (.error _, d') => (.error (.str .pngWriteFailed), d')
  | (.ok _, d1) =>
    match parsePng d1 with
    | .error .crash => (.error .crash, d1)
    | .error _ => writeCoreP defl d1 0 m
    | .ok [] => (.error .crash, d1)   -- chunks[0] panics
    | .ok (c :: _) => writeCoreP defl d1 c.length m

/- ------------------- well formed files ------------------- -/

/-- An abstract WebP chunk: fourCC name and raw (unpadded) payload. -/
structure WChunk where
  name : List Nat
  data : List Nat
deriving Repr, DecidableEq

/-- The payload as stored on disk (padded to even length). -/
def wpadData (c : WChunk) : List Nat :=
  c.data ++ (if c.data.length % 2 = 1 then [0x00] else [])

/-- The recorded (even) payload length of a chunk. -/
def wpadLen (c : WChunk) : Nat := c.data.length + c.data.length % 2

/-- On-disk bytes of one RIFF chunk: fourCC, little-endian raw length,
padded payload. -/
def wchunkBytes (c : WChunk) : List Nat :=
  c.name ++ leBytes c.data.length ++ wpadData c

def wchunksBytes (cs : List WChunk) : List Nat :=
  (cs.map wchunkBytes).flatten

/-- Total on-disk byte count of a chunk list. -/
def wtotal (cs : List WChunk) : Nat :=
  (cs.map (fun c => 8 + wpadLen c)).sum

/-- A whole WebP file laid out from its chunk list: RIFF signature,
little-endian size field (file length minus 8), WEBP signature, chunks. -/
def webpBytes (cs : List WChunk) : Disk :=
  RIFF_SIGNATURE ++ leBytes (4 + wtotal cs) ++ WEBP_SIGNATURE
    ++ wchunksBytes cs

/-- The descriptor the WebP walker records for a serialized chunk. -/
def WChunk.descriptor (c : WChunk) : RiffChunkDescriptor :=
  ⟨c.name, wpadLen c⟩

/-- A well formed fourCC: 4 ASCII bytes. -/
def wfName (n : List Nat) : Prop := n.length = 4 ∧ ∀ b ∈ n, b < 0x80

instance (n : List Nat) : Decidable (wfName n) := by
  unfold wfName; infer_instance

def isExifName (n : List Nat) : Prop := lowName n = lowName EXIF_NAME

instance (n : List Nat) : Decidable (isExifName n) := by
  unfold isExifName; infer_instance

/-- A well formed WebP chunk list: ASCII names and a total size small
enough for the u32 size field. -/
def wfWebp (cs : List WChunk) : Prop :=
  (∀ c ∈ cs, wfName c.name) ∧ 12 + wtotal cs < 2 ^ 32

instance (cs : List WChunk) : Decidable (wfWebp cs) := by
  unfold wfWebp; infer_instance

/-- An abstract PNG chunk: fourCC name and payload. -/
structure PChunk where
  name : List Nat
  data : List Nat
deriving Repr, DecidableEq

/-- On-disk bytes of one PNG chunk: big-endian length, fourCC, payload,
big-endian CRC-32 over fourCC and payload. -/
def pchunkBytes (c : PChunk) : List Nat :=
  beBytes c.data.length ++ c.name ++ c.data
    ++ beBytes (crc32 (c.name ++ c.data))

def pchunksBytes (cs : List PChunk) : List Nat :=
  (cs.map pchunkBytes).flatten

/-- A whole PNG file laid out from its chunk list. -/
def pngBytes (cs : List PChunk) : Disk :=
  PNG_SIGNATURE ++ pchunksBytes cs

/-- The descriptor the PNG walker records for a serialized chunk. -/
def PChunk.descriptor (c : PChunk) : PngChunk :=
  ⟨c.name, c.data.length⟩

/-- A well formed PNG chunk: ASCII name, bytes below 256, length below
2^32. -/
def wfPChunk (c : PChunk) : Prop :=
  wfName c.name ∧ (∀ b ∈ c.data, b < 256) ∧ c.data.length < 2 ^ 32

instance (c : PChunk) : Decidable (wfPChunk c) := by
  unfold wfPChunk; infer_instance

/-- A well formed PNG chunk list: well formed chunks, the last one named
IEND and no earlier one named IEND. -/
def wfPng (cs : List PChunk) : Prop :=
  (∀ c ∈ cs, wfPChunk c) ∧ cs ≠ [] ∧
    (∀ i : Fin cs.length, ((cs.get i).name = IEND_NAME ↔
      i.val = cs.length - 1))

instance (cs : List PChunk) : Decidable (wfPng cs) := by
  unfold wfPng; infer_instance

/- ------------- derived chunk list transformations ------------- -/

/-- The VP8X flag byte update performed by set_exif_flag. -/
def flagByte (v : Bool) (b : Nat) : Nat :=
  if v then b ||| 0x08 else b &&& 0xF7

/-- The effect of set_exif_flag on a chunk list: byte 0 of the first
chunk's payload is masked. -/
def setFlagCs (v : Bool) : List WChunk → List WChunk
  | [] => []
  | c :: rest => ⟨c.name, c.data.set 0 (flagByte v (c.data.getD 0 0))⟩ :: rest

/-- Whether write_metadata's insertion loop skips over this chunk. -/
def isAllowed (c : WChunk) : Bool :=
  preExifChunks.any (fun p => lowName p == lowName c.name)

/-- Insertion point as implemented: immediately after the first chunk
not in the allow list (or at end of file when every chunk is allowed). -/
def insertExifAfterFirstDisallowed (cs : List WChunk) (x : WChunk) :
    List WChunk :=
  match cs.dropWhile isAllowed with
  | [] => cs.takeWhile isAllowed ++ [x]
  | y :: t => cs.takeWhile isAllowed ++ y :: x :: t

/-- Insertion point as the specification words it: immediately before
the first chunk not in the allow list. -/
def insertExifBeforeFirstDisallowed (cs : List WChunk) (x : WChunk) :
    List WChunk :=
  cs.takeWhile isAllowed ++ x :: cs.dropWhile isAllowed

/-- Whether a chunk is the EXIF carrier (case insensitive compare, as in
the source). -/
def isExifW (c : WChunk) : Bool := lowName c.name == lowName EXIF_NAME

/- ------------------- concrete example files ------------------- -/

/-- A VP8X chunk with the EXIF flag bit set (10 byte payload as in real
WebP files). -/
def vp8xSet : WChunk := ⟨VP8X_NAME, [0x08, 0, 0, 0, 0, 0, 0, 0, 0, 0]⟩

/-- A VP8X chunk with the EXIF flag bit clear. -/
def vp8xUnset : WChunk := ⟨VP8X_NAME, [0, 0, 0, 0, 0, 0, 0, 0, 0, 0]⟩

/-- An EXIF chunk with a 5 byte (odd) payload. -/
def exifOdd : WChunk := ⟨EXIF_NAME, [1, 2, 3, 4, 5]⟩

/-- An Extended Format WebP file with EXIF flag set and one EXIF chunk. -/
def demoWebp : Disk := webpBytes [vp8xSet, exifOdd]

/-- An Extended Format WebP file whose EXIF flag is clear. -/
def demoWebpUnset : Disk := webpBytes [vp8xUnset, exifOdd]

/-- A Simple Format WebP file whose first chunk is VP8 (fourCC with a
trailing space). -/
def demoWebpVP8 : Disk := webpBytes [⟨[0x56, 0x50, 0x38, 0x20], [1, 2]⟩]

/-- A Simple Format WebP file whose first chunk is VP8L. -/
def demoWebpVP8L : Disk := webpBytes [⟨VP8L_NAME, [1, 2]⟩]

/-- A valid Extended Format WebP file with two EXIF chunks followed by a
further chunk: clear_metadata mangles it while reporting success. -/
def demoWebpTwoExif : Disk :=
  webpBytes [vp8xSet, ⟨EXIF_NAME, []⟩, ⟨EXIF_NAME, []⟩,
    ⟨[0x58, 0x59, 0x5A, 0x57], [1, 2]⟩]

/-- Chunks of a WebP file used for the insertion point counterexample:
VP8X (flag clear) followed by two chunks outside the allow list. -/
def demoInsertCs : List WChunk :=
  [vp8xUnset, ⟨[0x41, 0x41, 0x41, 0x41], [1, 2]⟩,
   ⟨[0x42, 0x42, 0x42, 0x42], [3, 4]⟩]

def demoInsert : Disk := webpBytes demoInsertCs

/-- A file whose first four bytes are not RIFF but whose size field is
consistent: the buggy signature comparison accepts it. -/
def demoBadRiff : Disk := [65, 66, 67, 68] ++ leBytes 4 ++ WEBP_SIGNATURE

/-- A file whose bytes 8-11 are not WEBP but whose size field is
consistent: the buggy signature comparison accepts it. -/
def demoBadWebp : Disk := RIFF_SIGNATURE ++ leBytes 4 ++ [65, 66, 67, 68]

/-- A minimal IHDR chunk (13 byte payload). -/
def ihdrDemo : PChunk := ⟨IHDR_NAME, [0, 0, 0, 1, 0, 0, 0, 1, 8, 0, 0, 0, 0]⟩

/-- A zTXt chunk. -/
def ztxtDemo : PChunk := ⟨ZTXT_NAME, [5, 6, 7]⟩

/-- An IEND chunk. -/
def iendDemo : PChunk := ⟨IEND_NAME, []⟩

/-- A valid PNG file with one zTXt chunk. -/
def demoPngCs : List PChunk := [ihdrDemo, ztxtDemo, iendDemo]

def demoPng : Disk := pngBytes demoPngCs

/-- Flip bit k of the byte at position q. -/
def flipBit (d : Disk) (q k : Nat) : Disk :=
  d.set q (d.getD q 0 ^^^ 2 ^ k)

/-- demoPng with one bit flipped inside the zTXt chunk's payload
(file offset 41 = 8 signature + 25 IHDR chunk + 8 chunk header + 0). -/
def demoPngFlipped : Disk := flipBit demoPng 41 0

/-- The derived total byte count of a WebP descriptor stream:
8 + length per chunk. -/
def wSum (cs : List RiffChunkDescriptor) : Nat :=
  (cs.map (fun c => 8 + c.size)).sum

/-- The derived total byte count of a PNG descriptor stream:
8 + length + 4 (CRC) per chunk. -/
def pSum (cs : List PngChunk) : Nat :=
  (cs.map (fun c => 12 + c.length)).sum

/-- The self-consistency check of the specification for WebP: parse
succeeds and signature size (12) plus the derived chunk stream size
equals the file length. -/
def webpConsistent (d : Disk) : Bool :=
  match parseWebp d with
  | .ok cs => 12 + wSum cs == d.length
  | .error _ => false

/-- The self-consistency check of the specification for PNG: parse
succeeds and signature size (8) plus the derived chunk stream size
equals the file length. -/
def pngConsistent (d : Disk) : Bool :=
  match parsePng d with
  | .ok cs => 8 + pSum cs == d.length
  | .error _ => false

/- ===================== theorems ===================== -/

theorem fsRead_eq (s : FS) (n : Nat) :
    fsRead s n =
      ((s.bytes.drop s.pos).take n
         ++ List.replicate (n - min n (s.bytes.length - s.pos)) 0,
       min n (s.bytes.length - s.pos),
       ⟨s.bytes, s.pos + min n (s.bytes.length - s.pos)⟩) := by
  simp [fsRead]

/-- C3.  The claim says check_signature fails with InvalidData whenever
bytes 0-3 are not RIFF or bytes 8-11 are not WEBP, and succeeds only
when both signatures match (and the size field is consistent).  In the
source the comparison `!buf.iter().zip(SIG)...count() == SIG.len()`
applies the usize bitwise NOT to the count, so it is always false and
the two signature checks never fire: both a file with corrupted RIFF
bytes and one with corrupted WEBP bytes (each with a consistent size
field) are accepted. -/
theorem C3_signature_check_ineffective :
    checkSignatureW demoBadRiff = .ok ⟨demoBadRiff, 12⟩ ∧
    checkSignatureW demoBadWebp = .ok ⟨demoBadWebp, 12⟩ := by decide

/-- C5.  On an Extended Format WebP file whose VP8X EXIF flag bit is
unset, read_metadata does not return an error value: it panics (the
source unwraps the Err returned by check_exif_in_file), modelled by the
crash outcome.  clear_metadata on the same file succeeds and leaves the
file byte identical, as the claim states. -/
theorem C5_read_crashes_clear_noop :
    readMetadataW demoWebpUnset = .error .crash ∧
    clearMetadataW demoWebpUnset = (.ok (), demoWebpUnset) := by decide

/-- C4 counterexample.  The claim says clear_metadata succeeds as a
no-op on every Simple Format file whose first chunk is VP8.  On a valid
VP8 file the error message interpolates the fourCC `VP8 ` (with its
trailing space), which does not match the only swallowed first-chunk
message (the one rendered with VP8L), so clear_metadata returns the
error instead of success. -/
theorem C4_counterexample :
    clearMetadataW demoWebpVP8 =
      (.error (.io .eOther (.firstChunkNotVP8X [0x56, 0x50, 0x38, 0x20])),
       demoWebpVP8) := by decide

/-- C1 counterexample.  The claim says write_metadata(F, M) followed by
read_metadata(F) returns exactly M.  For M = [1,2,3] the write succeeds
but the read returns the 6 byte EXIF marker prefix, then M, then the
RIFF padding byte (the walker records the even padded length), which is
not M. -/
theorem C1_counterexample :
    (writeMetadataW demoWebp [1, 2, 3]).1 = .ok () ∧
    readMetadataW (writeMetadataW demoWebp [1, 2, 3]).2
      = .ok (EXIF_HEADER ++ [1, 2, 3] ++ [0x00]) ∧
    readMetadataW (writeMetadataW demoWebp [1, 2, 3]).2 ≠ .ok [1, 2, 3] := by
  decide

/-- C2 counterexample.  The claim says that after clear_metadata on any
valid file the re-parse succeeds and 12 + sum of (8 + length) equals
the file byte length.  demoWebpTwoExif is valid and satisfies the
equality, clear_metadata returns success, and the resulting file still
parses but fails the equality (the second EXIF removal truncates the
tail of the following chunk instead of the chunk itself, leaving an
EXIF chunk and two stray bytes behind). -/
theorem C2_counterexample :
    webpConsistent demoWebpTwoExif = true ∧
    (clearMetadataW demoWebpTwoExif).1 = .ok () ∧
    parseWebp (clearMetadataW demoWebpTwoExif).2
      = .ok [⟨VP8X_NAME, 10⟩, ⟨EXIF_NAME, 0⟩] ∧
    webpConsistent (clearMetadataW demoWebpTwoExif).2 = false := by decide

/-- C6 counterexample.  The claim says the new EXIF chunk lands at the
byte position before the first chunk not in the allow list.  On a file
VP8X, AAAA, BBBB the write succeeds and the EXIF chunk lands after the
AAAA chunk (the insertion loop consumes the first disallowed chunk
before breaking), not before it as claimed. -/
theorem C6_counterexample :
    (writeMetadataW demoInsert [7]).1 = .ok () ∧
    (writeMetadataW demoInsert [7]).2
      = webpBytes (setFlagCs true
          (insertExifAfterFirstDisallowed demoInsertCs ⟨EXIF_NAME, [7]⟩)) ∧
    (writeMetadataW demoInsert [7]).2
      ≠ webpBytes (setFlagCs true
          (insertExifBeforeFirstDisallowed demoInsertCs ⟨EXIF_NAME, [7]⟩)) := by
  decide

/-- C8 counterexample.  The claim says a flipped payload bit makes
parse fail with the checksum error.  The walker does detect the flip as
a checksum mismatch, but parse_png replaces every walker failure by the
generic `Could not read next chunk` message, so the error parse returns
is not the checksum one. -/
theorem C8_counterexample :
    parsePng demoPng
      = .ok [⟨IHDR_NAME, 13⟩, ⟨ZTXT_NAME, 3⟩, ⟨IEND_NAME, 0⟩] ∧
    parsePng demoPngFlipped = .error (.str .pngNextChunk) ∧
    (.str .pngNextChunk : RE) ≠ (.str .pngChecksum : RE) := by decide

/- ------------- basic codec and layout lemmas ------------- -/

theorem length_leBytes (n : Nat) : (leBytes n).length = 4 := rfl

theorem length_beBytes (n : Nat) : (beBytes n).length = 4 := rfl

theorem leU32_leBytes {n : Nat} (h : n < 2 ^ 32) : leU32 (leBytes n) = n := by
  simp [leU32, leBytes]
  omega

theorem validUtf8_ascii : ∀ {l : List Nat}, (∀ b ∈ l, b < 0x80) →
    validUtf8 l = true
  | [], _ => rfl
  | b :: r, h => by
    have hb : b < 0x80 := h b (by simp)
    show utf8Scan (b :: r) 0 0 0 = true
    rw [utf8Scan]
    rw [if_pos hb]
    exact validUtf8_ascii (fun x hx => h x (by simp [hx]))

theorem wpadData_length (c : WChunk) :
    (wpadData c).length = wpadLen c := by
  simp only [wpadData, wpadLen, List.length_append]
  split <;> simp <;> omega

theorem wpadLen_even (c : WChunk) : wpadLen c % 2 = 0 := by
  simp only [wpadLen]; omega

theorem wchunkBytes_length {c : WChunk} (h : wfName c.name) :
    (wchunkBytes c).length = 8 + wpadLen c := by
  simp [wchunkBytes, h.1, wpadData_length, length_leBytes]
  omega

theorem wchunksBytes_nil : wchunksBytes [] = [] := rfl

theorem wchunksBytes_cons (c : WChunk) (cs : List WChunk) :
    wchunksBytes (c :: cs) = wchunkBytes c ++ wchunksBytes cs := by
  simp [wchunksBytes]

theorem wtotal_nil : wtotal [] = 0 := rfl

theorem wtotal_cons (c : WChunk) (cs : List WChunk) :
    wtotal (c :: cs) = (8 + wpadLen c) + wtotal cs := by
  simp [wtotal]

theorem wchunksBytes_length {cs : List WChunk}
    (h : ∀ c ∈ cs, wfName c.name) :
    (wchunksBytes cs).length = wtotal cs := by
  induction cs with
  | nil => rfl
  | cons c rest ih =>
    rw [wchunksBytes_cons, wtotal_cons, List.length_append,
      wchunkBytes_length (h c (by simp)), ih (fun x hx => h x (by simp [hx]))]

theorem webpBytes_length {cs : List WChunk}
    (h : ∀ c ∈ cs, wfName c.name) :
    (webpBytes cs).length = 12 + wtotal cs := by
  simp [webpBytes, RIFF_SIGNATURE, WEBP_SIGNATURE, length_leBytes,
    wchunksBytes_length h]
  omega

/- ------------- exact file primitive lemmas ------------- -/

theorem fsRead_exact {B P X R : List Nat} {p n : Nat}
    (hB : B = P ++ (X ++ R)) (hp : p = P.length) (hn : n = X.length) :
    fsRead ⟨B, p⟩ n = (X, n, ⟨B, p + n⟩) := by
  subst hB hp hn
  simp [fsRead, List.drop_left' (rfl : P.length = P.length),
    List.take_left' rfl]

theorem fsReadToEnd_exact {B P X : List Nat} {p : Nat}
    (hB : B = P ++ X) (hp : p = P.length) :
    fsReadToEnd ⟨B, p⟩ = (X, ⟨B, p + X.length⟩) := by
  subst hB hp
  simp [fsReadToEnd, List.drop_left' (rfl : P.length = P.length)]

theorem fsWriteAll_at {P Y D : List Nat} {p : Nat}
    (hD : D ≠ []) (hp : p = P.length) :
    fsWriteAll ⟨P ++ Y, p⟩ D
      = ⟨P ++ (D ++ Y.drop D.length), p + D.length⟩ := by
  subst hp
  simp only [fsWriteAll, hD, if_neg hD]
  have h1 : (P ++ Y).take P.length = P := List.take_left P Y
  have h2 : P.length - (P ++ Y).length = 0 := by simp
  have h3 : (P ++ Y).drop (P.length + D.length) = Y.drop D.length :=
    List.drop_append D.length
  rw [h1, h2, h3]
  simp

theorem fsSetLen_exact {B P X : List Nat} {q : Nat}
    (hB : B = P ++ X) (hq : q = P.length) (s : Nat) :
    fsSetLen ⟨B, s⟩ q = ⟨P, s⟩ := by
  subst hB hq
  simp [fsSetLen, List.take_left]

/- ------------- the WebP walker on serialized chunks ------------- -/

theorem getNextChunkW_serialized {B P R : List Nat} {p : Nat} {c : WChunk}
    (hB : B = P ++ (wchunkBytes c ++ R)) (hp : p = P.length)
    (hwf : wfName c.name) (hlt : c.data.length + 1 < 2 ^ 32) :
    getNextChunkW ⟨B, p⟩
      = .ok ⟨c.name, wpadLen c, wpadData c⟩ ⟨B, p + (8 + wpadLen c)⟩ := by
  have hname4 : c.name.length = 4 := hwf.1
  have hassoc : wchunkBytes c ++ R
      = (c.name ++ leBytes c.data.length) ++ (wpadData c ++ R) := by
    simp [wchunkBytes]
  rw [hassoc] at hB
  have h1 : fsRead ⟨B, p⟩ 8
      = (c.name ++ leBytes c.data.length, 8, ⟨B, p + 8⟩) :=
    fsRead_exact hB hp (by simp [hname4, length_leBytes])
  have hB2 : B = (P ++ (c.name ++ leBytes c.data.length))
      ++ (wpadData c ++ R) := by simp [hB]
  have hp2 : p + 8 = (P ++ (c.name ++ leBytes c.data.length)).length := by
    simp [hname4, length_leBytes, hp]
  have hpadlt : wpadLen c < 2 ^ 32 := by
    have := wpadLen_even c
    simp only [wpadLen] at *
    omega
  have h2 : fsRead ⟨B, p + 8⟩ (wpadLen c)
      = (wpadData c, wpadLen c, ⟨B, (p + 8) + wpadLen c⟩) :=
    fsRead_exact hB2 hp2 (wpadData_length c).symm
  have htake : (c.name ++ leBytes c.data.length).take 4 = c.name :=
    List.take_left' hname4
  have hdrop : (c.name ++ leBytes c.data.length).drop 4 =
      leBytes c.data.length := List.drop_left' hname4
  have hlen0 : leU32 (leBytes c.data.length) = c.data.length :=
    leU32_leBytes (by omega)
  unfold getNextChunkW
  rw [h1]
  simp only [htake, hdrop, hlen0]
  have hpad : (c.data.length + c.data.length % 2) % 2 ^ 32 = wpadLen c := by
    simp only [wpadLen]
    omega
  rw [hpad, h2]
  simp [validUtf8_ascii hwf.2]
  omega

theorem getNextChunkDescW_serialized {B P R : List Nat} {p : Nat}
    {c : WChunk} (hB : B = P ++ (wchunkBytes c ++ R)) (hp : p = P.length)
    (hwf : wfName c.name) (hlt : c.data.length + 1 < 2 ^ 32) :
    getNextChunkDescW ⟨B, p⟩
      = .ok ⟨c.name, wpadLen c⟩ ⟨B, p + (8 + wpadLen c)⟩ := by
  unfold getNextChunkDescW
  rw [getNextChunkW_serialized hB hp hwf hlt]
  rfl

theorem getNextChunkDescW_eof {B : List Nat} {p : Nat}
    (hp : p = B.length) :
    getNextChunkDescW ⟨B, p⟩
      = .err (.io .unexpectedEof .chunkStart) ⟨B, p⟩ := by
  subst hp
  unfold getNextChunkDescW getNextChunkW
  rw [fsRead_eq]
  simp

theorem length_le_wtotal (cs : List WChunk) : cs.length ≤ wtotal cs := by
  induction cs with
  | nil => simp [wtotal_nil]
  | cons c rest ih => rw [wtotal_cons]; simp; omega

theorem wfWebp_mem_bound {cs : List WChunk} (h : wfWebp cs) {c : WChunk}
    (hc : c ∈ cs) : c.data.length + 1 < 2 ^ 32 := by
  have h1 : 8 + wpadLen c ≤ wtotal cs := by
    have : 8 + wpadLen c ∈ cs.map (fun c => 8 + wpadLen c) :=
      List.mem_map_of_mem _ hc
    exact List.single_le_sum (fun x _ => Nat.zero_le x) _ this
  have h2 := h.2
  simp only [wpadLen] at h1
  omega

theorem parseWebpLoop_serialized (cs : List WChunk) :
    ∀ (fuel : Nat) (B P : List Nat) (acc : List RiffChunkDescriptor),
      B = P ++ wchunksBytes cs →
      (∀ c ∈ cs, wfName c.name ∧ c.data.length + 1 < 2 ^ 32) →
      cs.length < fuel →
      parseWebpLoop fuel ⟨B, P.length⟩ B.length P.length acc
        = .ok (acc ++ cs.map WChunk.descriptor) ⟨B, B.length⟩ := by
  induction cs with
  | nil =>
    intro fuel B P acc hB _ hfuel
    obtain ⟨f, rfl⟩ : ∃ f, fuel = f + 1 := ⟨fuel - 1, by omega⟩
    have hPB : P.length = B.length := by
      rw [hB, wchunksBytes_nil, List.append_nil]
    rw [parseWebpLoop, hPB, getNextChunkDescW_eof rfl]
    simp
  | cons c rest ih =>
    intro fuel B P acc hB hwf hfuel
    obtain ⟨f, rfl⟩ : ∃ f, fuel = f + 1 := ⟨fuel - 1, by omega⟩
    rw [wchunksBytes_cons] at hB
    have hB' : B = P ++ (wchunkBytes c ++ wchunksBytes rest) := hB
    have hcwf := hwf c (by simp)
    have hstep := getNextChunkDescW_serialized hB' rfl hcwf.1 hcwf.2
    rw [parseWebpLoop, hstep]
    dsimp only
    have hlen : B.length = P.length + (8 + wpadLen c)
        + (wchunksBytes rest).length := by
      rw [hB']
      simp [wchunkBytes_length hcwf.1]
      omega
    cases rest with
    | nil =>
      have hz : (wchunksBytes ([] : List WChunk)).length = 0 := rfl
      have hcond : P.length + 4 + 4
          + (⟨c.name, wpadLen c⟩ : RiffChunkDescriptor).size = B.length := by
        dsimp only
        omega
      rw [if_pos hcond]
      simp only [List.map_cons, List.map_nil, WChunk.descriptor]
      refine congrArg₂ _ rfl ?_
      have : P.length + (8 + wpadLen c) = B.length := by omega
      rw [this]
    | cons r t =>
      have hpos : (wchunksBytes (r :: t)).length ≥ 8 := by
        rw [wchunksBytes_cons, List.length_append,
          wchunkBytes_length (hwf r (by simp)).1]
        omega
      have hcond : ¬ (P.length + 4 + 4
          + (⟨c.name, wpadLen c⟩ : RiffChunkDescriptor).size = B.length) := by
        dsimp only
        omega
      rw [if_neg hcond]
      have hP2 : P.length + 4 + 4
          + (⟨c.name, wpadLen c⟩ : RiffChunkDescriptor).size
          = (P ++ wchunkBytes c).length := by
        dsimp only
        rw [List.length_append, wchunkBytes_length hcwf.1]
        omega
      have hB2 : B = (P ++ wchunkBytes c) ++ wchunksBytes (r :: t) := by
        rw [hB']
        exact (List.append_assoc P (wchunkBytes c) (wchunksBytes (r :: t))).symm
      have hfin : P.length + (8 + wpadLen c) = (P ++ wchunkBytes c).length := by
        rw [List.length_append, wchunkBytes_length hcwf.1]
      rw [hfin]
      have := ih f B (P ++ wchunkBytes c) (acc ++ [⟨c.name, wpadLen c⟩])
        hB2 (fun x hx => hwf x (by simp [hx])) (by simp at hfuel ⊢; omega)
      rw [hP2, this]
      simp [WChunk.descriptor]

theorem checkSignatureW_webpBytes {cs : List WChunk} (h : wfWebp cs) :
    checkSignatureW (webpBytes cs) = .ok ⟨webpBytes cs, 12⟩ := by
  have hn : ∀ c ∈ cs, wfName c.name := h.1
  have hB : webpBytes cs = ([] : List Nat) ++ (RIFF_SIGNATURE
      ++ (leBytes (4 + wtotal cs) ++ (WEBP_SIGNATURE ++ wchunksBytes cs))) := by
    simp [webpBytes]
  have h1 := fsRead_exact (X := RIFF_SIGNATURE) hB
    (show (0 : Nat) = ([] : List Nat).length from rfl)
    (show (4 : Nat) = RIFF_SIGNATURE.length from rfl)
  have hB2 : webpBytes cs = RIFF_SIGNATURE
      ++ (leBytes (4 + wtotal cs) ++ (WEBP_SIGNATURE ++ wchunksBytes cs)) := by
    simp [webpBytes]
  have h2 := fsRead_exact (X := leBytes (4 + wtotal cs)) hB2
    (show (4 : Nat) = RIFF_SIGNATURE.length from rfl)
    (length_leBytes _).symm
  have hB3 : webpBytes cs = (RIFF_SIGNATURE ++ leBytes (4 + wtotal cs))
      ++ (WEBP_SIGNATURE ++ wchunksBytes cs) := by
    simp [webpBytes]
  have h3 := fsRead_exact (X := WEBP_SIGNATURE) hB3
    (show (8 : Nat) = (RIFF_SIGNATURE ++ leBytes (4 + wtotal cs)).length by
      simp [RIFF_SIGNATURE, length_leBytes])
    (show (4 : Nat) = WEBP_SIGNATURE.length from rfl)
  simp only [checkSignatureW]
  rw [h1]
  dsimp only
  rw [if_neg (by decide)]
  rw [h2]
  dsimp only
  have hsz : leU32 (leBytes (4 + wtotal cs)) = 4 + wtotal cs :=
    leU32_leBytes (by have := h.2; omega)
  have hlen : (webpBytes cs).length = 12 + wtotal cs := webpBytes_length hn
  rw [if_neg (by
    rw [hsz, hlen]
    have := h.2
    rw [not_ne_iff, Nat.mod_eq_of_lt (by omega)]
    omega)]
  rw [h3]
  dsimp only
  rw [if_neg (by decide)]

theorem parseWebp_webpBytes {cs : List WChunk} (h : wfWebp cs) :
    parseWebp (webpBytes cs) = .ok (cs.map WChunk.descriptor) := by
  unfold parseWebp
  rw [checkSignatureW_webpBytes h]
  have hB : webpBytes cs = (RIFF_SIGNATURE ++ leBytes (4 + wtotal cs)
      ++ WEBP_SIGNATURE) ++ wchunksBytes cs := by
    simp [webpBytes]
  have h12 : (12 : Nat) = (RIFF_SIGNATURE ++ leBytes (4 + wtotal cs)
      ++ WEBP_SIGNATURE).length := by
    simp [RIFF_SIGNATURE, WEBP_SIGNATURE, length_leBytes]
  have hfuel : cs.length < (webpBytes cs).length + 1 := by
    have h1 := length_le_wtotal cs
    have h2 : (webpBytes cs).length = 12 + wtotal cs := webpBytes_length h.1
    omega
  have hloop := parseWebpLoop_serialized cs ((webpBytes cs).length + 1)
    (webpBytes cs) (RIFF_SIGNATURE ++ leBytes (4 + wtotal cs)
      ++ WEBP_SIGNATURE) [] hB
    (fun c hc => ⟨h.1 c hc, wfWebp_mem_bound h hc⟩) hfuel
  dsimp only
  rw [h12, hloop]
  simp

theorem webpBytes_decomp20 (c0 : WChunk) (rest : List WChunk) :
    webpBytes (c0 :: rest) = (RIFF_SIGNATURE
        ++ leBytes (4 + wtotal (c0 :: rest)) ++ WEBP_SIGNATURE
        ++ c0.name ++ leBytes c0.data.length)
      ++ (wpadData c0 ++ wchunksBytes rest) := by
  simp [webpBytes, wchunksBytes_cons, wchunkBytes]

theorem webpBytes_decomp20_length {c0 : WChunk} (h4 : c0.name.length = 4) :
    (RIFF_SIGNATURE ++ leBytes (4 + wtotal (c0 :: rest)) ++ WEBP_SIGNATURE
      ++ c0.name ++ leBytes c0.data.length).length = 20 := by
  simp [RIFF_SIGNATURE, WEBP_SIGNATURE, length_leBytes, h4]

theorem checkExifInFile_webpBytes {c0 : WChunk} {rest : List WChunk}
    {d0 d1 d2 d3 : Nat} {t : List Nat}
    (h : wfWebp (c0 :: rest)) (hname : c0.name = VP8X_NAME)
    (hdata : c0.data = d0 :: d1 :: d2 :: d3 :: t) :
    checkExifInFile (webpBytes (c0 :: rest))
      = if d0 &&& 0x08 = 0x08
        then .ok (⟨webpBytes (c0 :: rest), 24⟩,
          (c0 :: rest).map WChunk.descriptor)
        else .error (.io .eOther .noExifFlag) := by
  have hn4 : c0.name.length = 4 := by rw [hname]; rfl
  have hpad : wpadData c0 = d0 :: d1 :: d2 :: d3
      :: (t ++ if c0.data.length % 2 = 1 then [0x00] else []) := by
    simp [wpadData, hdata]
  have hBdec := webpBytes_decomp20 c0 rest
  rw [hpad] at hBdec
  have hB : webpBytes (c0 :: rest) = (RIFF_SIGNATURE
        ++ leBytes (4 + wtotal (c0 :: rest)) ++ WEBP_SIGNATURE
        ++ c0.name ++ leBytes c0.data.length)
      ++ ([d0, d1, d2, d3]
        ++ ((t ++ if c0.data.length % 2 = 1 then [0x00] else [])
             ++ wchunksBytes rest)) := by
    rw [hBdec]
    simp
  have hflag := fsRead_exact (X := [d0, d1, d2, d3]) hB
    (show (20 : Nat) = _ from (webpBytes_decomp20_length hn4).symm)
    (show (4 : Nat) = _ from rfl)
  unfold checkExifInFile
  rw [parseWebp_webpBytes h]
  dsimp only [List.map_cons, List.head?]
  have hlow : ¬ (lowName (WChunk.descriptor c0).name ≠ lowName VP8X_NAME) := by
    simp [WChunk.descriptor, hname]
  rw [if_neg hlow, checkSignatureW_webpBytes h]
  dsimp only [fsSeekStart]
  have h20 : (12 : Nat) + 4 + 4 = 20 := rfl
  rw [h20, hflag]
  dsimp only
  rw [if_neg (show ¬ ((4 : Nat) ≠ 4) by omega)]
  simp only [List.getD_cons_zero]
  by_cases hd : d0 &&& 0x08 = 0x08
  · rw [if_neg (not_ne_iff.mpr hd), if_pos hd]
  · rw [if_pos hd, if_neg hd]

theorem setFlagCs_cons {c0 : WChunk} {rest : List WChunk}
    {d0 d1 d2 d3 : Nat} {t : List Nat} (v : Bool)
    (hdata : c0.data = d0 :: d1 :: d2 :: d3 :: t) :
    setFlagCs v (c0 :: rest)
      = ⟨c0.name, flagByte v d0 :: d1 :: d2 :: d3 :: t⟩ :: rest := by
  simp [setFlagCs, hdata]

theorem setExifFlag_webpBytes {c0 : WChunk} {rest : List WChunk}
    {d0 d1 d2 d3 : Nat} {t : List Nat}
    (h : wfWebp (c0 :: rest)) (hname : c0.name = VP8X_NAME)
    (hdata : c0.data = d0 :: d1 :: d2 :: d3 :: t) (v : Bool) :
    setExifFlag (webpBytes (c0 :: rest)) v
      = (.ok (), webpBytes
          (⟨c0.name, flagByte v d0 :: d1 :: d2 :: d3 :: t⟩ :: rest)) := by
  have hn4 : c0.name.length = 4 := by rw [hname]; rfl
  have hlen : (flagByte v d0 :: d1 :: d2 :: d3 :: t).length
      = c0.data.length := by rw [hdata]; rfl
  have hB : webpBytes (c0 :: rest) = (RIFF_SIGNATURE
        ++ leBytes (4 + wtotal (c0 :: rest)) ++ WEBP_SIGNATURE
        ++ c0.name ++ leBytes c0.data.length)
      ++ (d0 :: d1 :: d2 :: d3
        :: ((t ++ if c0.data.length % 2 = 1 then [0x00] else [])
             ++ wchunksBytes rest)) := by
    rw [webpBytes_decomp20 c0 rest]
    simp [wpadData, hdata]
  have hB' : webpBytes (c0 :: rest) = (RIFF_SIGNATURE
        ++ leBytes (4 + wtotal (c0 :: rest)) ++ WEBP_SIGNATURE
        ++ c0.name ++ leBytes c0.data.length)
      ++ ([d0, d1, d2, d3]
        ++ ((t ++ if c0.data.length % 2 = 1 then [0x00] else [])
             ++ wchunksBytes rest)) := by
    rw [hB]
    simp
  have hflag := fsRead_exact (X := [d0, d1, d2, d3]) hB'
    (show (20 : Nat) = _ from (webpBytes_decomp20_length hn4).symm)
    (show (4 : Nat) = _ from rfl)
  unfold setExifFlag
  rw [parseWebp_webpBytes h, checkSignatureW_webpBytes h]
  dsimp only [List.map_cons, List.head?]
  have hlow : ¬ (lowName (WChunk.descriptor c0).name ≠ lowName VP8X_NAME) := by
    simp [WChunk.descriptor, hname]
  rw [if_neg hlow]
  unfold setFlagWrite
  dsimp only [fsSeekStart]
  have h20 : (12 : Nat) + 4 + 4 = 20 := rfl
  rw [h20, hflag]
  dsimp only
  rw [if_neg (show ¬ ((4 : Nat) ≠ 4) by omega)]
  have hwrite := fsWriteAll_at
    (P := RIFF_SIGNATURE ++ leBytes (4 + wtotal (c0 :: rest))
      ++ WEBP_SIGNATURE ++ c0.name ++ leBytes c0.data.length)
    (Y := d0 :: d1 :: d2 :: d3
        :: ((t ++ if c0.data.length % 2 = 1 then [0x00] else [])
             ++ wchunksBytes rest))
    (D := (if v then [d0, d1, d2, d3].getD 0 0 ||| 0x08
           else [d0, d1, d2, d3].getD 0 0 &&& 0xF7)
          :: [d0, d1, d2, d3].drop 1)
    (by simp) (webpBytes_decomp20_length hn4).symm
  rw [← hB] at hwrite
  rw [hwrite]
  dsimp only
  have hsame : wtotal (⟨c0.name, flagByte v d0 :: d1 :: d2 :: d3 :: t⟩
      :: rest) = wtotal (c0 :: rest) := by
    rw [wtotal_cons, wtotal_cons]
    simp only [wpadLen, hlen]
  rw [webpBytes_decomp20, hsame]
  have hdl : c0.data.length = t.length + 1 + 1 + 1 + 1 := by
    rw [hdata]; rfl
  simp [wpadData, hlen, flagByte, hdl]

theorem clearLoopW_skip : ∀ (cs1 : List WChunk)
    (ds : List RiffChunkDescriptor) (s : FS) (k : Nat),
    (∀ c ∈ cs1, lowName c.name ≠ lowName EXIF_NAME) →
    clearLoopW s k (cs1.map WChunk.descriptor ++ ds)
      = clearLoopW ⟨s.bytes, s.pos + wtotal cs1⟩ k ds
  | [], ds, s, k, _ => by simp [wtotal_nil]
  | c :: cs1, ds, s, k, hno => by
    rw [List.map_cons, List.cons_append, clearLoopW]
    have hc : lowName (WChunk.descriptor c).name ≠ lowName EXIF_NAME :=
      hno c (by simp)
    rw [if_pos hc]
    have hbc : 4 + 4 + (WChunk.descriptor c).size
        + (WChunk.descriptor c).size % 2 = 8 + wpadLen c := by
      simp only [WChunk.descriptor]
      have := wpadLen_even c
      omega
    rw [hbc]
    rw [clearLoopW_skip cs1 ds _ k (fun x hx => hno x (by simp [hx]))]
    simp only [fsSeekCur, wtotal_cons]
    have heq : s.pos + (8 + wpadLen c) + wtotal cs1
        = s.pos + (8 + wpadLen c + wtotal cs1) := by omega
    rw [heq]

theorem clearLoopW_exif {B P Rpost : List Nat} {e : WChunk} {k : Nat}
    (ds : List RiffChunkDescriptor)
    (hB : B = P ++ (wchunkBytes e ++ Rpost))
    (hwfE : wfName e.name)
    (hex : ¬ lowName e.name ≠ lowName EXIF_NAME)
    (hbound : B.length < 2 ^ 64) :
    clearLoopW ⟨B, P.length⟩ k (e.descriptor :: ds)
      = clearLoopW ⟨P ++ Rpost, P.length + Rpost.length⟩
          (sub32 k (8 + wpadLen e)) ds := by
  rw [clearLoopW]
  rw [if_neg (by simp only [WChunk.descriptor]; exact hex)]
  have hbc : 4 + 4 + (WChunk.descriptor e).size
      + (WChunk.descriptor e).size % 2 = 8 + wpadLen e := by
    simp only [WChunk.descriptor]
    have := wpadLen_even e
    omega
  have hwlen : (wchunkBytes e).length = 8 + wpadLen e :=
    wchunkBytes_length hwfE
  have hB2 : B = (P ++ wchunkBytes e) ++ Rpost := by
    rw [hB, List.append_assoc]
  have hrd := fsReadToEnd_exact hB2
    (show P.length + (8 + wpadLen e) = (P ++ wchunkBytes e).length by
      rw [List.length_append, hwlen])
  dsimp only
  rw [hbc]
  simp only [fsSeekCur]
  rw [hrd]
  dsimp only [fsSeekStart]
  have hBlen : B.length = P.length + (8 + wpadLen e) + Rpost.length := by
    rw [hB2]
    simp [hwlen]
    omega
  have hsub : sub64 B.length (8 + wpadLen e)
      = P.length + Rpost.length := by
    simp only [sub64]
    rw [Nat.mod_eq_of_lt (show 8 + wpadLen e < 2 ^ 64 by omega)]
    omega
  cases hR : Rpost with
  | nil =>
    subst hR
    have hw : fsWriteAll ⟨B, P.length⟩ ([] : List Nat) = ⟨B, P.length⟩ := by
      simp [fsWriteAll]
    rw [hw]
    have hset : fsSetLen ⟨B, P.length⟩ (sub64 B.length (8 + wpadLen e))
        = ⟨P, P.length⟩ := by
      rw [hsub]
      have : B = P ++ wchunkBytes e := by simpa using hB2
      simpa using fsSetLen_exact this (by simp) P.length
    rw [hset]
    simp
  | cons r0 rt =>
    have hRne : Rpost ≠ [] := by rw [hR]; simp
    rw [← hR]
    have hw := fsWriteAll_at (Y := wchunkBytes e ++ Rpost) (D := Rpost)
      hRne (rfl : P.length = P.length)
    rw [← hB] at hw
    rw [hw]
    have hset : fsSetLen ⟨P ++ (Rpost ++ (wchunkBytes e ++ Rpost).drop
        Rpost.length), P.length + Rpost.length⟩
          (sub64 B.length (8 + wpadLen e))
        = ⟨P ++ Rpost, P.length + Rpost.length⟩ := by
      rw [hsub]
      exact fsSetLen_exact
        (show P ++ (Rpost ++ (wchunkBytes e ++ Rpost).drop Rpost.length)
            = (P ++ Rpost) ++ (wchunkBytes e ++ Rpost).drop Rpost.length by
          simp)
        (by simp) _
    rw [hset]

theorem wchunksBytes_append (a b : List WChunk) :
    wchunksBytes (a ++ b) = wchunksBytes a ++ wchunksBytes b := by
  simp [wchunksBytes]

theorem wtotal_append (a b : List WChunk) :
    wtotal (a ++ b) = wtotal a + wtotal b := by
  simp [wtotal]

theorem webpBytes_decompChunks (cs1 cs2 : List WChunk) :
    webpBytes (cs1 ++ cs2) = (RIFF_SIGNATURE
        ++ leBytes (4 + wtotal (cs1 ++ cs2)) ++ WEBP_SIGNATURE
        ++ wchunksBytes cs1) ++ wchunksBytes cs2 := by
  simp [webpBytes, wchunksBytes_append]

theorem clearMetadataW_webpBytes_one {c0 e : WChunk} {pre post : List WChunk}
    {d0 d1 d2 d3 : Nat} {t : List Nat}
    (h : wfWebp (c0 :: (pre ++ e :: post)))
    (hname : c0.name = VP8X_NAME)
    (hdata : c0.data = d0 :: d1 :: d2 :: d3 :: t)
    (hflag : d0 &&& 0x08 = 0x08)
    (hpre : ∀ c ∈ pre, lowName c.name ≠ lowName EXIF_NAME)
    (hpost : ∀ c ∈ post, lowName c.name ≠ lowName EXIF_NAME)
    (he : lowName e.name = lowName EXIF_NAME) :
    clearMetadataW (webpBytes (c0 :: (pre ++ e :: post)))
      = (.ok (), webpBytes (setFlagCs false (c0 :: (pre ++ post)))) := by
  have hc0ne : lowName c0.name ≠ lowName EXIF_NAME := by
    rw [hname]; decide
  have hewf : wfName e.name := h.1 e (by simp)
  have hwtots : wtotal (c0 :: (pre ++ e :: post))
      = wtotal (c0 :: pre) + (8 + wpadLen e) + wtotal post := by
    rw [wtotal_cons, wtotal_cons]
    have : wtotal (pre ++ e :: post) = wtotal pre + ((8 + wpadLen e)
        + wtotal post) := by
      rw [wtotal_append, wtotal_cons]
    omega
  have hB : webpBytes (c0 :: (pre ++ e :: post))
      = (RIFF_SIGNATURE ++ leBytes (4 + wtotal (c0 :: (pre ++ e :: post)))
          ++ WEBP_SIGNATURE ++ wchunksBytes (c0 :: pre))
        ++ (wchunkBytes e ++ wchunksBytes post) := by
    have h1 : c0 :: (pre ++ e :: post) = (c0 :: pre) ++ (e :: post) := by
      simp
    rw [h1, webpBytes_decompChunks]
    simp [wchunksBytes_cons, List.append_assoc]
  have hnpre : ∀ c ∈ c0 :: pre, wfName c.name := by
    intro c hc
    apply h.1
    rcases List.mem_cons.mp hc with h' | h'
    · simp [h']
    · exact List.mem_cons_of_mem _ (List.mem_append_left _ h')
  have hPlen : (RIFF_SIGNATURE
      ++ leBytes (4 + wtotal (c0 :: (pre ++ e :: post)))
      ++ WEBP_SIGNATURE ++ wchunksBytes (c0 :: pre)).length
      = 12 + wtotal (c0 :: pre) := by
    simp [RIFF_SIGNATURE, WEBP_SIGNATURE, length_leBytes,
      wchunksBytes_length hnpre]
    omega
  unfold clearMetadataW
  rw [checkExifInFile_webpBytes h hname hdata, if_pos hflag]
  dsimp only [fsSeekStart]
  have hBhead : webpBytes (c0 :: (pre ++ e :: post)) = RIFF_SIGNATURE
      ++ (leBytes (4 + wtotal (c0 :: (pre ++ e :: post)))
        ++ (WEBP_SIGNATURE ++ wchunksBytes (c0 :: (pre ++ e :: post)))) := by
    simp [webpBytes]
  have hszrd := fsRead_exact
    (X := leBytes (4 + wtotal (c0 :: (pre ++ e :: post)))) hBhead
    (show (4 : Nat) = RIFF_SIGNATURE.length from rfl)
    (length_leBytes _).symm
  rw [hszrd]
  dsimp only [fsSeekCur]
  have hsz : leU32 (leBytes (4 + wtotal (c0 :: (pre ++ e :: post))))
      = 4 + wtotal (c0 :: (pre ++ e :: post)) :=
    leU32_leBytes (by have := h.2; omega)
  rw [hsz]
  have hmap : (c0 :: (pre ++ e :: post)).map WChunk.descriptor
      = (c0 :: pre).map WChunk.descriptor
        ++ (e.descriptor :: post.map WChunk.descriptor) := by
    simp
  rw [hmap]
  rw [clearLoopW_skip (c0 :: pre) _ _ _ (by
    intro c hc
    rcases List.mem_cons.mp hc with h' | h'
    · rw [h']; exact hc0ne
    · exact hpre c h')]
  dsimp only
  have h12 : (4 : Nat) + 4 + 4 = 12 := rfl
  rw [h12]
  have hexif := @clearLoopW_exif (webpBytes (c0 :: (pre ++ e :: post)))
    (RIFF_SIGNATURE ++ leBytes (4 + wtotal (c0 :: (pre ++ e :: post)))
      ++ WEBP_SIGNATURE ++ wchunksBytes (c0 :: pre))
    (wchunksBytes post) e
    (4 + wtotal (c0 :: (pre ++ e :: post)))
    (post.map WChunk.descriptor) hB hewf (by simp [he])
    (by
      rw [webpBytes_length h.1]
      have := h.2
      omega)
  rw [show 12 + wtotal (c0 :: pre) = (RIFF_SIGNATURE
      ++ leBytes (4 + wtotal (c0 :: (pre ++ e :: post)))
      ++ WEBP_SIGNATURE ++ wchunksBytes (c0 :: pre)).length from hPlen.symm,
    hexif]
  rw [show post.map WChunk.descriptor
      = post.map WChunk.descriptor ++ [] by simp]
  rw [clearLoopW_skip post [] _ _ hpost]
  rw [clearLoopW]
  dsimp only
  have hwf2 : wfWebp (c0 :: (pre ++ post)) := by
    constructor
    · intro c hc
      apply h.1
      rcases List.mem_cons.mp hc with h' | h'
      · simp [h']
      · rcases List.mem_append.mp h' with h2 | h2
        · exact List.mem_cons_of_mem _ (List.mem_append_left _ h2)
        · exact List.mem_cons_of_mem _ (List.mem_append_right _
            (List.mem_cons_of_mem _ h2))
    · have hb := h.2
      have h3 : wtotal (c0 :: (pre ++ post))
          = wtotal (c0 :: pre) + wtotal post := by
        rw [wtotal_cons, wtotal_cons, wtotal_append]
        omega
      omega
  have hknew : sub32 (4 + wtotal (c0 :: (pre ++ e :: post)))
      (8 + wpadLen e) = 4 + wtotal (c0 :: (pre ++ post)) := by
    have hb := h.2
    have h3 : wtotal (c0 :: (pre ++ post))
        = wtotal (c0 :: pre) + wtotal post := by
      rw [wtotal_cons, wtotal_cons, wtotal_append]
      omega
    simp only [sub32]
    rw [Nat.mod_eq_of_lt (show 8 + wpadLen e < 2 ^ 32 by omega)]
    omega
  have hform : RIFF_SIGNATURE
        ++ leBytes (4 + wtotal (c0 :: (pre ++ e :: post)))
        ++ WEBP_SIGNATURE ++ wchunksBytes (c0 :: pre) ++ wchunksBytes post
      = RIFF_SIGNATURE
        ++ (leBytes (4 + wtotal (c0 :: (pre ++ e :: post)))
          ++ (WEBP_SIGNATURE
            ++ (wchunksBytes (c0 :: pre) ++ wchunksBytes post))) := by
    simp [List.append_assoc]
  rw [hform]
  have hw := fsWriteAll_at (P := RIFF_SIGNATURE)
    (Y := leBytes (4 + wtotal (c0 :: (pre ++ e :: post)))
      ++ (WEBP_SIGNATURE
        ++ (wchunksBytes (c0 :: pre) ++ wchunksBytes post)))
    (D := leBytes (sub32 (4 + wtotal (c0 :: (pre ++ e :: post)))
      (8 + wpadLen e)))
    (by simp [leBytes]) (show (4 : Nat) = RIFF_SIGNATURE.length from rfl)
  rw [hw]
  have hdrop : (leBytes (4 + wtotal (c0 :: (pre ++ e :: post)))
      ++ (WEBP_SIGNATURE
        ++ (wchunksBytes (c0 :: pre) ++ wchunksBytes post))).drop
          (leBytes (sub32 (4 + wtotal (c0 :: (pre ++ e :: post)))
            (8 + wpadLen e))).length
      = WEBP_SIGNATURE ++ (wchunksBytes (c0 :: pre) ++ wchunksBytes post) := by
    rw [length_leBytes]
    exact List.drop_left' (length_leBytes _)
  rw [hdrop, hknew]
  have hres : RIFF_SIGNATURE
        ++ (leBytes (4 + wtotal (c0 :: (pre ++ post)))
          ++ (WEBP_SIGNATURE
            ++ (wchunksBytes (c0 :: pre) ++ wchunksBytes post)))
      = webpBytes (c0 :: (pre ++ post)) := by
    simp [webpBytes, wchunksBytes_cons, wchunksBytes_append,
      List.append_assoc]
  rw [hres]
  rw [setExifFlag_webpBytes hwf2 hname hdata false]
  rw [setFlagCs_cons false hdata]

theorem checkExifInFile_webpBytes_notVP8X {c0 : WChunk}
    {rest : List WChunk} (h : wfWebp (c0 :: rest))
    (hname : lowName c0.name ≠ lowName VP8X_NAME) :
    checkExifInFile (webpBytes (c0 :: rest))
      = .error (.io .eOther (.firstChunkNotVP8X c0.name)) := by
  unfold checkExifInFile
  rw [parseWebp_webpBytes h]
  dsimp only [List.map_cons, List.head?]
  rw [if_pos (by simpa [WChunk.descriptor] using hname)]
  rfl

theorem clearMetadataW_webpBytes_vp8l {c0 : WChunk} {rest : List WChunk}
    (h : wfWebp (c0 :: rest)) (hname : c0.name = VP8L_NAME) :
    clearMetadataW (webpBytes (c0 :: rest))
      = (.ok (), webpBytes (c0 :: rest)) := by
  unfold clearMetadataW
  rw [checkExifInFile_webpBytes_notVP8X h (by rw [hname]; decide)]
  dsimp only
  rw [if_pos hname]

theorem clearMetadataW_webpBytes_vp8 {c0 : WChunk} {rest : List WChunk}
    (h : wfWebp (c0 :: rest)) (hname : c0.name = [0x56, 0x50, 0x38, 0x20]) :
    clearMetadataW (webpBytes (c0 :: rest))
      = (.error (.io .eOther (.firstChunkNotVP8X c0.name)),
         webpBytes (c0 :: rest)) := by
  unfold clearMetadataW
  rw [checkExifInFile_webpBytes_notVP8X h (by rw [hname]; decide)]
  dsimp only
  rw [if_neg (by rw [hname]; decide)]

theorem clearMetadataW_webpBytes_unset {c0 : WChunk} {rest : List WChunk}
    {d0 d1 d2 d3 : Nat} {t : List Nat}
    (h : wfWebp (c0 :: rest)) (hname : c0.name = VP8X_NAME)
    (hdata : c0.data = d0 :: d1 :: d2 :: d3 :: t)
    (hflag : ¬ d0 &&& 0x08 = 0x08) :
    clearMetadataW (webpBytes (c0 :: rest))
      = (.ok (), webpBytes (c0 :: rest)) := by
  unfold clearMetadataW
  rw [checkExifInFile_webpBytes h hname hdata, if_neg hflag]

theorem clearMetadataW_webpBytes_none {c0 : WChunk} {rest : List WChunk}
    {d0 d1 d2 d3 : Nat} {t : List Nat}
    (h : wfWebp (c0 :: rest)) (hname : c0.name = VP8X_NAME)
    (hdata : c0.data = d0 :: d1 :: d2 :: d3 :: t)
    (hflag : d0 &&& 0x08 = 0x08)
    (hrest : ∀ c ∈ rest, lowName c.name ≠ lowName EXIF_NAME) :
    clearMetadataW (webpBytes (c0 :: rest))
      = (.ok (), webpBytes (setFlagCs false (c0 :: rest))) := by
  have hc0ne : lowName c0.name ≠ lowName EXIF_NAME := by
    rw [hname]; decide
  unfold clearMetadataW
  rw [checkExifInFile_webpBytes h hname hdata, if_pos hflag]
  dsimp only [fsSeekStart]
  have hBhead : webpBytes (c0 :: rest) = RIFF_SIGNATURE
      ++ (leBytes (4 + wtotal (c0 :: rest))
        ++ (WEBP_SIGNATURE ++ wchunksBytes (c0 :: rest))) := by
    simp [webpBytes]
  have hszrd := fsRead_exact
    (X := leBytes (4 + wtotal (c0 :: rest))) hBhead
    (show (4 : Nat) = RIFF_SIGNATURE.length from rfl)
    (length_leBytes _).symm
  rw [hszrd]
  dsimp only [fsSeekCur]
  rw [leU32_leBytes (by have := h.2; omega)]
  rw [show (c0 :: rest).map WChunk.descriptor
      = (c0 :: rest).map WChunk.descriptor ++ [] by simp]
  rw [clearLoopW_skip (c0 :: rest) [] _ _ (by
    intro c hc
    rcases List.mem_cons.mp hc with h' | h'
    · rw [h']; exact hc0ne
    · exact hrest c h')]
  rw [clearLoopW]
  dsimp only
  have hform : webpBytes (c0 :: rest) = RIFF_SIGNATURE
      ++ (leBytes (4 + wtotal (c0 :: rest))
        ++ (WEBP_SIGNATURE ++ wchunksBytes (c0 :: rest))) := hBhead
  rw [hform]
  have hw := fsWriteAll_at (P := RIFF_SIGNATURE)
    (Y := leBytes (4 + wtotal (c0 :: rest))
      ++ (WEBP_SIGNATURE ++ wchunksBytes (c0 :: rest)))
    (D := leBytes (4 + wtotal (c0 :: rest)))
    (by simp [leBytes]) (show (4 : Nat) = RIFF_SIGNATURE.length from rfl)
  rw [hw]
  have hdrop : (leBytes (4 + wtotal (c0 :: rest))
      ++ (WEBP_SIGNATURE ++ wchunksBytes (c0 :: rest))).drop
        (leBytes (4 + wtotal (c0 :: rest))).length
      = WEBP_SIGNATURE ++ wchunksBytes (c0 :: rest) :=
    List.drop_left' (length_leBytes _)
  rw [hdrop]
  have hres : RIFF_SIGNATURE
      ++ (leBytes (4 + wtotal (c0 :: rest))
        ++ (WEBP_SIGNATURE ++ wchunksBytes (c0 :: rest)))
      = webpBytes (c0 :: rest) := hBhead.symm
  rw [hres]
  rw [setExifFlag_webpBytes h hname hdata false]
  rw [setFlagCs_cons false hdata]

theorem encodeMetadataWebp_eq {m : List Nat} (hm : m.length < 2 ^ 32) :
    encodeMetadataWebp m = wchunkBytes ⟨EXIF_NAME, m⟩ := by
  simp only [encodeMetadataWebp, wchunkBytes, wpadData,
    Nat.mod_eq_of_lt hm, List.append_assoc]
  by_cases h2 : m.length % 2 = 1
  · simp [h2]
  · have h0 : m.length % 2 = 0 := by omega
    simp [h0]

theorem isAllowed_vp8x {c : WChunk} (hname : c.name = VP8X_NAME) :
    isAllowed c = true := by
  unfold isAllowed preExifChunks
  rw [hname]
  decide

theorem writeInsertLoop_serialized (cs : List WChunk) :
    ∀ (fuel : Nat) (B P : List Nat),
      B = P ++ wchunksBytes cs →
      (∀ c ∈ cs, wfName c.name ∧ c.data.length + 1 < 2 ^ 32) →
      cs.length < fuel →
      writeInsertLoop fuel ⟨B, P.length⟩
        = .ok () ⟨B, P.length + wtotal (cs.takeWhile isAllowed)
            + ((cs.dropWhile isAllowed).head?.elim 0
               (fun y => 8 + wpadLen y))⟩ := by
  induction cs with
  | nil =>
    intro fuel B P hB _ hfuel
    obtain ⟨f, rfl⟩ : ∃ f, fuel = f + 1 := ⟨fuel - 1, by omega⟩
    have hPB : P.length = B.length := by
      rw [hB, wchunksBytes_nil, List.append_nil]
    rw [writeInsertLoop, hPB, getNextChunkDescW_eof rfl]
    simp [List.takeWhile_nil, List.dropWhile_nil, wtotal_nil]
  | cons c rest ih =>
    intro fuel B P hB hwf hfuel
    obtain ⟨f, rfl⟩ : ∃ f, fuel = f + 1 := ⟨fuel - 1, by omega⟩
    rw [wchunksBytes_cons] at hB
    have hcwf := hwf c (by simp)
    have hstep := getNextChunkDescW_serialized hB rfl hcwf.1 hcwf.2
    rw [writeInsertLoop, hstep]
    dsimp only
    by_cases hal : isAllowed c = true
    · rw [if_pos (by
        simpa [isAllowed, WChunk.descriptor] using hal)]
      have hB2 : B = (P ++ wchunkBytes c) ++ wchunksBytes rest := by
        rw [hB]
        exact (List.append_assoc P (wchunkBytes c) (wchunksBytes rest)).symm
      have hfin : P.length + (8 + wpadLen c)
          = (P ++ wchunkBytes c).length := by
        rw [List.length_append, wchunkBytes_length hcwf.1]
      rw [hfin]
      rw [ih f B (P ++ wchunkBytes c) hB2
        (fun x hx => hwf x (by simp [hx])) (by simp at hfuel ⊢; omega)]
      rw [List.takeWhile_cons, List.dropWhile_cons]
      simp only [hal, if_true, wtotal_cons]
      refine congrArg (RSt.ok ()) ?_
      simp only [FS.mk.injEq, List.length_append, wchunkBytes_length hcwf.1]
      refine ⟨trivial, ?_⟩
      dsimp only
      omega
    · rw [if_neg (by
        simpa [isAllowed, WChunk.descriptor] using hal)]
      rw [List.takeWhile_cons, List.dropWhile_cons]
      simp only [hal, if_false, Bool.false_eq_true]
      refine congrArg (RSt.ok ()) ?_
      simp only [FS.mk.injEq, wtotal_nil]
      refine ⟨trivial, ?_⟩
      dsimp only
      simp

theorem fsWriteAll_nil (s : FS) : fsWriteAll s [] = s := by
  simp [fsWriteAll]

theorem fsWriteAll_back {P E Y : List Nat} :
    fsWriteAll ⟨P ++ (E ++ Y.drop E.length), P.length + E.length⟩ Y
      = ⟨P ++ (E ++ Y), P.length + E.length + Y.length⟩ := by
  cases hY : Y with
  | nil =>
    rw [fsWriteAll_nil]
    simp
  | cons y0 yt =>
    rw [← hY]
    have hYne : Y ≠ [] := by rw [hY]; simp
    have hsh : P ++ (E ++ Y.drop E.length)
        = (P ++ E) ++ Y.drop E.length := by simp
    have hp : P.length + E.length = (P ++ E).length := by simp
    rw [hsh, hp, fsWriteAll_at hYne rfl]
    have hdd : (Y.drop E.length).drop Y.length = [] := by
      rw [List.drop_drop]
      apply List.drop_eq_nil_of_le
      omega
    rw [hdd]
    simp

theorem writeTailW_serialized {c0 x : WChunk} {csA' csB : List WChunk}
    {e0 e1 e2 e3 : Nat} {t : List Nat}
    (hname : c0.name = VP8X_NAME)
    (hdata : c0.data = e0 :: e1 :: e2 :: e3 :: t)
    (hxwf : wfName x.name)
    (hwf2 : wfWebp ((c0 :: csA') ++ x :: csB)) :
    writeTailW ⟨webpBytes ((c0 :: csA') ++ csB),
        (RIFF_SIGNATURE ++ leBytes (4 + wtotal ((c0 :: csA') ++ csB))
          ++ WEBP_SIGNATURE ++ wchunksBytes (c0 :: csA')).length⟩
      (wchunkBytes x)
      = (.ok (), webpBytes (setFlagCs true ((c0 :: csA') ++ x :: csB))) := by
  have hsub : ∀ c ∈ (c0 :: csA') ++ csB, c ∈ (c0 :: csA') ++ x :: csB := by
    intro c hc
    rcases List.mem_append.mp hc with h' | h'
    · exact List.mem_append_left _ h'
    · exact List.mem_append_right _ (List.mem_cons_of_mem _ h')
  have hwtot : wtotal ((c0 :: csA') ++ x :: csB)
      = wtotal ((c0 :: csA') ++ csB) + (8 + wpadLen x) := by
    simp only [wtotal_append, wtotal_cons]
    omega
  have hwf1 : wfWebp ((c0 :: csA') ++ csB) := by
    refine ⟨fun c hc => hwf2.1 c (hsub c hc), ?_⟩
    have := hwf2.2
    omega
  have hold : 4 + wtotal ((c0 :: csA') ++ csB) < 2 ^ 32 := by
    have := hwf1.2
    omega
  have henclen : (wchunkBytes x).length = 8 + wpadLen x :=
    wchunkBytes_length hxwf
  have hencne : wchunkBytes x ≠ [] := by
    intro hx
    have := congrArg List.length hx
    rw [henclen] at this
    simp at this
  have hB1 : webpBytes ((c0 :: csA') ++ csB)
      = (RIFF_SIGNATURE ++ leBytes (4 + wtotal ((c0 :: csA') ++ csB))
          ++ WEBP_SIGNATURE ++ wchunksBytes (c0 :: csA'))
        ++ wchunksBytes csB := by
    rw [webpBytes_decompChunks]
  have hrd := fsReadToEnd_exact hB1 rfl
  simp only [writeTailW]
  rw [hrd]
  dsimp only [fsSeekStart]
  rw [show fsWriteAll ⟨webpBytes ((c0 :: csA') ++ csB),
      (RIFF_SIGNATURE ++ leBytes (4 + wtotal ((c0 :: csA') ++ csB))
        ++ WEBP_SIGNATURE ++ wchunksBytes (c0 :: csA')).length⟩
      (wchunkBytes x)
    = ⟨(RIFF_SIGNATURE ++ leBytes (4 + wtotal ((c0 :: csA') ++ csB))
        ++ WEBP_SIGNATURE ++ wchunksBytes (c0 :: csA'))
        ++ (wchunkBytes x ++ (wchunksBytes csB).drop
          (wchunkBytes x).length),
      (RIFF_SIGNATURE ++ leBytes (4 + wtotal ((c0 :: csA') ++ csB))
        ++ WEBP_SIGNATURE ++ wchunksBytes (c0 :: csA')).length
        + (wchunkBytes x).length⟩ from by
    rw [hB1] at *
    exact fsWriteAll_at hencne rfl]
  rw [fsWriteAll_back]
  dsimp only
  have hB2 : RIFF_SIGNATURE
        ++ leBytes (4 + wtotal ((c0 :: csA') ++ csB)) ++ WEBP_SIGNATURE
        ++ wchunksBytes (c0 :: csA')
        ++ (wchunkBytes x ++ wchunksBytes csB)
      = RIFF_SIGNATURE
        ++ (leBytes (4 + wtotal ((c0 :: csA') ++ csB))
          ++ (WEBP_SIGNATURE ++ (wchunksBytes (c0 :: csA')
            ++ (wchunkBytes x ++ wchunksBytes csB)))) := by
    simp [List.append_assoc]
  have hszrd := fsRead_exact
    (X := leBytes (4 + wtotal ((c0 :: csA') ++ csB))) hB2
    (show (4 : Nat) = RIFF_SIGNATURE.length from rfl)
    (length_leBytes _).symm
  rw [hszrd]
  dsimp only
  rw [leU32_leBytes hold, henclen]
  have hnew : (4 + wtotal ((c0 :: csA') ++ csB)
      + (8 + wpadLen x) % 2 ^ 32) % 2 ^ 32
      = 4 + wtotal ((c0 :: csA') ++ x :: csB) := by
    have h2 := hwf2.2
    rw [hwtot] at h2 ⊢
    rw [Nat.mod_eq_of_lt (show 8 + wpadLen x < 2 ^ 32 by omega)]
    rw [Nat.mod_eq_of_lt (by omega)]
    omega
  rw [hnew]
  rw [hB2]
  have hw2 := fsWriteAll_at (P := RIFF_SIGNATURE)
    (Y := leBytes (4 + wtotal ((c0 :: csA') ++ csB))
      ++ (WEBP_SIGNATURE ++ (wchunksBytes (c0 :: csA')
        ++ (wchunkBytes x ++ wchunksBytes csB))))
    (D := leBytes (4 + wtotal ((c0 :: csA') ++ x :: csB)))
    (by simp [leBytes]) (show (4 : Nat) = RIFF_SIGNATURE.length from rfl)
  rw [hw2]
  have hdropsz : (leBytes (4 + wtotal ((c0 :: csA') ++ csB))
      ++ (WEBP_SIGNATURE ++ (wchunksBytes (c0 :: csA')
        ++ (wchunkBytes x ++ wchunksBytes csB)))).drop
        (leBytes (4 + wtotal ((c0 :: csA') ++ x :: csB))).length
      = WEBP_SIGNATURE ++ (wchunksBytes (c0 :: csA')
        ++ (wchunkBytes x ++ wchunksBytes csB)) := by
    rw [length_leBytes]
    exact List.drop_left' (length_leBytes _)
  rw [hdropsz]
  have hres : RIFF_SIGNATURE
      ++ (leBytes (4 + wtotal ((c0 :: csA') ++ x :: csB))
        ++ (WEBP_SIGNATURE ++ (wchunksBytes (c0 :: csA')
          ++ (wchunkBytes x ++ wchunksBytes csB))))
      = webpBytes ((c0 :: csA') ++ x :: csB) := by
    simp [webpBytes, wchunksBytes_append, wchunksBytes_cons,
      List.append_assoc]
  rw [hres]
  simp only [List.cons_append]
  have hwf2c : wfWebp (c0 :: (csA' ++ x :: csB)) := by
    simpa [List.cons_append] using hwf2
  rw [setExifFlag_webpBytes hwf2c hname hdata true]
  rw [setFlagCs_cons true hdata]

theorem writeMetadataW_webpBytes_gen {d : Disk} {c0 : WChunk}
    {rest1 : List WChunk} {m : List Nat} {e0 e1 e2 e3 : Nat} {t : List Nat}
    (hclear : clearMetadataW d = (.ok (), webpBytes (c0 :: rest1)))
    (h1 : wfWebp (c0 :: rest1)) (hname : c0.name = VP8X_NAME)
    (hdata : c0.data = e0 :: e1 :: e2 :: e3 :: t)
    (hm : 12 + wtotal (c0 :: rest1)
      + (8 + wpadLen ⟨EXIF_NAME, m⟩) < 2 ^ 32) :
    writeMetadataW d m
      = (.ok (), webpBytes (setFlagCs true
          (insertExifAfterFirstDisallowed (c0 :: rest1)
            ⟨EXIF_NAME, m⟩))) := by
  have hmlen : m.length < 2 ^ 32 := by
    simp only [wpadLen] at hm
    omega
  have hxwf : wfName (⟨EXIF_NAME, m⟩ : WChunk).name := by
    show wfName EXIF_NAME
    decide
  have hsplit : (c0 :: rest1).takeWhile isAllowed
        ++ (c0 :: rest1).dropWhile isAllowed = c0 :: rest1 :=
    List.takeWhile_append_dropWhile isAllowed (c0 :: rest1)
  have hfuel : (c0 :: rest1).length
      < (webpBytes (c0 :: rest1)).length + 1 := by
    have h1l := length_le_wtotal (c0 :: rest1)
    have h2l : (webpBytes (c0 :: rest1)).length
        = 12 + wtotal (c0 :: rest1) := webpBytes_length h1.1
    omega
  have hB : webpBytes (c0 :: rest1) = (RIFF_SIGNATURE
      ++ leBytes (4 + wtotal (c0 :: rest1)) ++ WEBP_SIGNATURE)
      ++ wchunksBytes (c0 :: rest1) := by
    simp [webpBytes]
  have h12 : (12 : Nat) = (RIFF_SIGNATURE
      ++ leBytes (4 + wtotal (c0 :: rest1)) ++ WEBP_SIGNATURE).length := by
    simp [RIFF_SIGNATURE, WEBP_SIGNATURE, length_leBytes]
  have hloop := writeInsertLoop_serialized (c0 :: rest1)
    ((webpBytes (c0 :: rest1)).length + 1) (webpBytes (c0 :: rest1))
    (RIFF_SIGNATURE ++ leBytes (4 + wtotal (c0 :: rest1)) ++ WEBP_SIGNATURE)
    hB (fun c hc => ⟨h1.1 c hc, wfWebp_mem_bound h1 hc⟩) hfuel
  have hAcons : (c0 :: rest1).takeWhile isAllowed
      = c0 :: rest1.takeWhile isAllowed := by
    rw [List.takeWhile_cons, if_pos (isAllowed_vp8x hname)]
  have hdwcons : (c0 :: rest1).dropWhile isAllowed
      = rest1.dropWhile isAllowed := by
    rw [List.dropWhile_cons, if_pos (isAllowed_vp8x hname)]
  unfold writeMetadataW
  rw [hclear]
  dsimp only
  rw [encodeMetadataWebp_eq hmlen, checkSignatureW_webpBytes h1]
  dsimp only
  rw [h12, hloop]
  dsimp only
  cases hdw : (c0 :: rest1).dropWhile isAllowed with
  | nil =>
    have hA : (c0 :: rest1).takeWhile isAllowed = c0 :: rest1 := by
      rw [hdw, List.append_nil] at hsplit
      exact hsplit
    have hwf2 : wfWebp ((c0 :: rest1) ++ ⟨EXIF_NAME, m⟩ :: ([] : List WChunk)) := by
      constructor
      · intro c hc
        rcases List.mem_append.mp hc with h' | h'
        · exact h1.1 c h'
        · rcases List.mem_cons.mp h' with h2 | h2
          · rw [h2]; exact hxwf
          · simp at h2
      · simp only [wtotal_append, wtotal_cons, wtotal_nil]
        simp only [wtotal_cons] at hm
        omega
    have htail := @writeTailW_serialized c0 ⟨EXIF_NAME, m⟩ rest1
      ([] : List WChunk) e0 e1 e2 e3 t hname hdata hxwf hwf2
    simp only [List.append_nil, List.cons_append] at htail
    rw [hA]
    simp only [List.head?_nil, Option.elim]
    have hpos : (RIFF_SIGNATURE ++ leBytes (4 + wtotal (c0 :: rest1))
        ++ WEBP_SIGNATURE).length + wtotal (c0 :: rest1) + 0
        = (RIFF_SIGNATURE ++ leBytes (4 + wtotal (c0 :: rest1))
          ++ WEBP_SIGNATURE ++ wchunksBytes (c0 :: rest1)).length := by
      have hw := @wchunksBytes_length (c0 :: rest1) h1.1
      simp only [List.length_append]
      omega
    rw [hpos, htail]
    simp [insertExifAfterFirstDisallowed, hdw, hA]
  | cons y t2 =>
    have hA2 : (c0 :: rest1).takeWhile isAllowed
        = c0 :: rest1.takeWhile isAllowed := hAcons
    have hcs1 : (c0 :: (rest1.takeWhile isAllowed ++ [y])) ++ t2
        = c0 :: rest1 := by
      have := hsplit
      rw [hA2, hdw] at this
      simp only [List.cons_append] at this ⊢
      rw [List.append_assoc]
      simpa using this
    have hwf2 : wfWebp ((c0 :: (rest1.takeWhile isAllowed ++ [y]))
        ++ ⟨EXIF_NAME, m⟩ :: t2) := by
      constructor
      · intro c hc
        rcases List.mem_append.mp hc with h' | h'
        · apply h1.1
          rw [← hcs1]
          exact List.mem_append_left _ h'
        · rcases List.mem_cons.mp h' with h2 | h2
          · rw [h2]; exact hxwf
          · apply h1.1
            rw [← hcs1]
            exact List.mem_append_right _ h2
      · have harr : wtotal ((c0 :: (rest1.takeWhile isAllowed ++ [y]))
            ++ ⟨EXIF_NAME, m⟩ :: t2)
            = wtotal (c0 :: rest1) + (8 + wpadLen ⟨EXIF_NAME, m⟩) := by
          rw [← hcs1]
          simp only [wtotal_append, wtotal_cons, List.cons_append]
          omega
        rw [harr]
        omega
    have htail := @writeTailW_serialized c0 ⟨EXIF_NAME, m⟩
      (rest1.takeWhile isAllowed ++ [y]) t2 e0 e1 e2 e3 t
      hname hdata hxwf hwf2
    rw [hcs1] at htail
    simp only [List.head?_cons, Option.elim]
    have hpos : (RIFF_SIGNATURE ++ leBytes (4 + wtotal (c0 :: rest1))
        ++ WEBP_SIGNATURE).length
        + wtotal ((c0 :: rest1).takeWhile isAllowed) + (8 + wpadLen y)
        = (RIFF_SIGNATURE ++ leBytes (4 + wtotal (c0 :: rest1))
          ++ WEBP_SIGNATURE
          ++ wchunksBytes (c0 :: (rest1.takeWhile isAllowed ++ [y]))).length
        := by
      have hnAy : ∀ c ∈ c0 :: (rest1.takeWhile isAllowed ++ [y]),
          wfName c.name := by
        intro c hc
        apply h1.1
        rw [← hcs1]
        exact List.mem_append_left _ hc
      rw [hA2]
      simp [wchunksBytes_length hnAy, wtotal_cons, wtotal_append,
        wtotal_nil]
      omega
    rw [hpos, htail]
    have hins : insertExifAfterFirstDisallowed (c0 :: rest1)
        ⟨EXIF_NAME, m⟩
        = (c0 :: (rest1.takeWhile isAllowed ++ [y]))
          ++ ⟨EXIF_NAME, m⟩ :: t2 := by
      unfold insertExifAfterFirstDisallowed
      rw [hdw, hA2]
      simp [List.append_assoc]
    rw [hins]

/- ------------- read_metadata on serialized files ------------- -/

theorem and8_or8 (x : Nat) : (x ||| 8) &&& 8 = 8 := by
  apply Nat.eq_of_testBit_eq
  intro i
  rw [Nat.testBit_and, Nat.testBit_or]
  cases h : Nat.testBit 8 i <;> simp [h]

theorem get_map_after : ∀ (pre : List WChunk) (c : WChunk)
    (r : List WChunk),
    ((pre ++ c :: r).map WChunk.descriptor).get? pre.length
      = some (WChunk.descriptor c)
  | [], _, _ => rfl
  | _ :: pre, c, r => get_map_after pre c r

theorem readMetadataLoop_serialized : ∀ (cs1 : List WChunk) (fuel : Nat)
    (D P : List Nat) (pre : List WChunk) (x : WChunk) (csB : List WChunk),
    D = P ++ wchunksBytes (cs1 ++ x :: csB) →
    (∀ c ∈ cs1, wfName c.name) → wfName x.name →
    (∀ c ∈ cs1, lowName c.name ≠ lowName EXIF_NAME) →
    lowName x.name = lowName EXIF_NAME →
    cs1.length < fuel →
    readMetadataLoop fuel ⟨D, P.length⟩
      ((pre ++ (cs1 ++ x :: csB)).map WChunk.descriptor) pre.length
      = .ok (EXIF_HEADER ++ wpadData x)
  | [], fuel, D, P, pre, x, csB => by
    intro hD _ hx hno hxe hfuel
    obtain ⟨f, rfl⟩ : ∃ f, fuel = f + 1 := ⟨fuel - 1, by omega⟩
    have hx4 : x.name.length = 4 := hx.1
    have hD' : D = P ++ (x.name ++ (leBytes x.data.length
        ++ (wpadData x ++ wchunksBytes csB))) := by
      rw [hD]
      simp [wchunksBytes_cons, wchunkBytes]
    have hr := fsRead_exact hD' rfl
      (show (4 : Nat) = x.name.length from hx4.symm)
    simp only [readMetadataLoop, List.nil_append]
    rw [hr]
    dsimp only
    rw [if_neg (show ¬ ((4 : Nat) ≠ 4) by omega)]
    rw [get_map_after pre x csB]
    dsimp only [WChunk.descriptor]
    rw [if_neg (not_ne_iff.mpr rfl), if_pos hxe]
    dsimp only [fsSeekCur]
    have hr2 := fsRead_exact (X := wpadData x)
      (show D = (P ++ x.name ++ leBytes x.data.length)
          ++ (wpadData x ++ wchunksBytes csB) from by rw [hD']; simp)
      (show P.length + 4 + 4
          = (P ++ x.name ++ leBytes x.data.length).length from by
        simp [hx4, length_leBytes])
      (wpadData_length x).symm
    rw [hr2]
  | c :: cs1, fuel, D, P, pre, x, csB => by
    intro hD hwf hx hno hxe hfuel
    obtain ⟨f, rfl⟩ : ∃ f, fuel = f + 1 := ⟨fuel - 1, by omega⟩
    have hc4 : c.name.length = 4 := (hwf c (by simp)).1
    have hD' : D = P ++ (c.name ++ (leBytes c.data.length
        ++ (wpadData c ++ wchunksBytes (cs1 ++ x :: csB)))) := by
      rw [hD]
      simp [wchunksBytes_cons, wchunkBytes]
    have hr := fsRead_exact hD' rfl
      (show (4 : Nat) = c.name.length from hc4.symm)
    simp only [readMetadataLoop, List.cons_append]
    rw [hr]
    dsimp only
    rw [if_neg (show ¬ ((4 : Nat) ≠ 4) by omega)]
    rw [get_map_after pre c (cs1 ++ x :: csB)]
    dsimp only [WChunk.descriptor]
    rw [if_neg (not_ne_iff.mpr rfl),
      if_neg (hno c (by simp)), if_neg (show ¬ (wpadLen c % 2 = 1) from by
        have := wpadLen_even c; omega)]
    dsimp only [fsSeekCur]
    have hD2 : D = (P ++ wchunkBytes c)
        ++ wchunksBytes (cs1 ++ x :: csB) := by
      rw [hD, List.cons_append, wchunksBytes_cons]
      simp
    have hrec := readMetadataLoop_serialized cs1 f D (P ++ wchunkBytes c)
      (pre ++ [c]) x csB hD2
      (fun c' hc' => hwf c' (by simp [hc']))
      hx (fun c' hc' => hno c' (by simp [hc'])) hxe
      (by simp only [List.length_cons] at hfuel; omega)
    rw [show (P ++ wchunkBytes c).length
        = P.length + 4 + 4 + wpadLen c from by
      rw [List.length_append, wchunkBytes_length ⟨hc4, (hwf c (by simp)).2⟩]
      omega] at hrec
    rw [show (pre ++ [c]).length = pre.length + 1 from by simp] at hrec
    simp only [List.append_assoc, List.cons_append, List.nil_append]
      at hrec
    exact hrec

theorem readMetadataW_webpBytes {c0 : WChunk} {cs1 csB : List WChunk}
    {x : WChunk} {d0 d1 d2 d3 : Nat} {t : List Nat}
    (h : wfWebp (c0 :: (cs1 ++ x :: csB)))
    (hname : c0.name = VP8X_NAME)
    (hdata : c0.data = d0 :: d1 :: d2 :: d3 :: t)
    (hflag : d0 &&& 0x08 = 0x08)
    (hno : ∀ c ∈ cs1, lowName c.name ≠ lowName EXIF_NAME)
    (hxe : lowName x.name = lowName EXIF_NAME) :
    readMetadataW (webpBytes (c0 :: (cs1 ++ x :: csB)))
      = .ok (EXIF_HEADER ++ wpadData x) := by
  unfold readMetadataW
  rw [checkExifInFile_webpBytes h hname hdata, if_pos hflag]
  dsimp only [fsSeekStart]
  have h12 : (12 : Nat) = (RIFF_SIGNATURE
      ++ leBytes (4 + wtotal (c0 :: (cs1 ++ x :: csB)))
      ++ WEBP_SIGNATURE).length := by
    simp [RIFF_SIGNATURE, WEBP_SIGNATURE, length_leBytes]
  have hD : webpBytes (c0 :: (cs1 ++ x :: csB)) = (RIFF_SIGNATURE
      ++ leBytes (4 + wtotal (c0 :: (cs1 ++ x :: csB)))
      ++ WEBP_SIGNATURE) ++ wchunksBytes ((c0 :: cs1) ++ x :: csB) := by
    simp [webpBytes]
  have hfuel : (c0 :: cs1).length
      < (webpBytes (c0 :: (cs1 ++ x :: csB))).length + 1 := by
    have hl1 := length_le_wtotal (c0 :: (cs1 ++ x :: csB))
    have hl2 := webpBytes_length h.1
    simp only [List.length_cons, List.length_append] at hl1 ⊢
    omega
  have hloop := readMetadataLoop_serialized (c0 :: cs1)
    ((webpBytes (c0 :: (cs1 ++ x :: csB))).length + 1)
    (webpBytes (c0 :: (cs1 ++ x :: csB)))
    (RIFF_SIGNATURE ++ leBytes (4 + wtotal (c0 :: (cs1 ++ x :: csB)))
      ++ WEBP_SIGNATURE) [] x csB hD
    (fun c hc => by
      rcases List.mem_cons.mp hc with h' | h'
      · rw [h']; exact h.1 c0 (by simp)
      · exact h.1 c (List.mem_cons_of_mem _ (List.mem_append_left _ h')))
    (h.1 x (by simp))
    (fun c hc => by
      rcases List.mem_cons.mp hc with h' | h'
      · rw [h', hname]; decide
      · exact hno c h')
    hxe hfuel
  simp only [List.nil_append, List.length_nil, List.cons_append] at hloop
  rw [h12]
  exact hloop

theorem insertAfter_eq_nil {cs : List WChunk} (x : WChunk)
    (h : cs.dropWhile isAllowed = []) :
    insertExifAfterFirstDisallowed cs x = cs.takeWhile isAllowed ++ [x] := by
  unfold insertExifAfterFirstDisallowed
  rw [h]

theorem insertAfter_eq_cons {cs : List WChunk} (x y : WChunk)
    {t : List WChunk} (h : cs.dropWhile isAllowed = y :: t) :
    insertExifAfterFirstDisallowed cs x
      = cs.takeWhile isAllowed ++ y :: x :: t := by
  unfold insertExifAfterFirstDisallowed
  rw [h]

theorem insertAfter_decomp (rest1 : List WChunk) (c0 x : WChunk)
    (hall : isAllowed c0 = true) :
    ∃ cs1 csB, insertExifAfterFirstDisallowed (c0 :: rest1) x
        = c0 :: (cs1 ++ x :: csB)
      ∧ (c0 :: cs1) ++ csB = c0 :: rest1 := by
  have htw : (c0 :: rest1).takeWhile isAllowed
      = c0 :: rest1.takeWhile isAllowed := by
    rw [List.takeWhile_cons, if_pos hall]
  have hdw : (c0 :: rest1).dropWhile isAllowed
      = rest1.dropWhile isAllowed := by
    rw [List.dropWhile_cons, if_pos hall]
  have hsplit := List.takeWhile_append_dropWhile isAllowed rest1
  cases hd : rest1.dropWhile isAllowed with
  | nil =>
    refine ⟨rest1, [], ?_, by simp⟩
    rw [insertAfter_eq_nil x (by rw [hdw, hd]), htw]
    rw [hd, List.append_nil] at hsplit
    rw [hsplit]
    simp
  | cons y t =>
    refine ⟨rest1.takeWhile isAllowed ++ [y], t, ?_, ?_⟩
    · rw [insertAfter_eq_cons x y (by rw [hdw, hd]), htw]
      simp
    · rw [hd] at hsplit
      simp only [List.cons_append, List.append_assoc, List.cons_append,
        List.nil_append]
      rw [hsplit]

theorem wtotal_setFlag (v : Bool) (cs : List WChunk) :
    wtotal (setFlagCs v cs) = wtotal cs := by
  cases cs with
  | nil => rfl
  | cons c r => simp [setFlagCs, wtotal_cons, wpadLen, List.length_set]

theorem wf_setFlag {cs : List WChunk} (h : wfWebp cs) (v : Bool) :
    wfWebp (setFlagCs v cs) := by
  cases cs with
  | nil => exact h
  | cons c r =>
    constructor
    · intro c' hc'
      rcases List.mem_cons.mp hc' with h' | h'
      · rw [h']
        exact h.1 c (by simp)
      · exact h.1 c' (List.mem_cons_of_mem _ h')
    · rw [wtotal_setFlag]
      exact h.2

theorem wf_insertAfter {c0 : WChunk} {rest1 cs1 csB : List WChunk}
    (x : WChunk) (h1 : wfWebp (c0 :: rest1))
    (hxn : wfName x.name)
    (hsp : (c0 :: cs1) ++ csB = c0 :: rest1)
    (hm : 12 + wtotal (c0 :: rest1) + (8 + wpadLen x) < 2 ^ 32) :
    wfWebp (c0 :: (cs1 ++ x :: csB))
    ∧ wtotal (c0 :: (cs1 ++ x :: csB))
      = wtotal (c0 :: rest1) + (8 + wpadLen x) := by
  have hw := congrArg wtotal hsp
  simp only [List.cons_append, wtotal_cons, wtotal_append] at hw
  have htot : wtotal (c0 :: (cs1 ++ x :: csB))
      = wtotal (c0 :: rest1) + (8 + wpadLen x) := by
    simp only [wtotal_cons, wtotal_append]
    omega
  refine ⟨⟨?_, ?_⟩, htot⟩
  · intro c hc
    rcases List.mem_cons.mp hc with h' | h'
    · rw [h']
      exact h1.1 c0 (by simp)
    · rcases List.mem_append.mp h' with h2 | h2
      · refine h1.1 c ?_
        rw [← hsp]
        exact List.mem_append_left _ (List.mem_cons_of_mem _ h2)
      · rcases List.mem_cons.mp h2 with h3 | h3
        · rw [h3]; exact hxn
        · refine h1.1 c ?_
          rw [← hsp]
          exact List.mem_append_right _ h3
  · rw [htot]
    omega

/-- C1 (corrected).  The round-trip claim fails as stated (the read
value is not M, see C1_counterexample); the correct relation is: after
write_metadata(F, M) on a cleared extended-format WebP file,
read_metadata returns the EXIF_HEADER marker, then M, then one RIFF
padding byte when M has odd length. -/
theorem C1_roundtrip_amended {d : Disk} {c0 : WChunk}
    {rest1 : List WChunk} {m : List Nat} {e0 e1 e2 e3 : Nat} {t : List Nat}
    (hclear : clearMetadataW d = (.ok (), webpBytes (c0 :: rest1)))
    (h1 : wfWebp (c0 :: rest1)) (hname : c0.name = VP8X_NAME)
    (hdata : c0.data = e0 :: e1 :: e2 :: e3 :: t)
    (hnoex : ∀ c ∈ c0 :: rest1, lowName c.name ≠ lowName EXIF_NAME)
    (hm : 12 + wtotal (c0 :: rest1)
        + (8 + wpadLen ⟨EXIF_NAME, m⟩) < 2 ^ 32) :
    (writeMetadataW d m).1 = .ok () ∧
    readMetadataW (writeMetadataW d m).2
      = .ok (EXIF_HEADER ++ m
          ++ (if m.length % 2 = 1 then [0x00] else [])) := by
  have hw := writeMetadataW_webpBytes_gen hclear h1 hname hdata hm
  obtain ⟨cs1, csB, hins, hsp⟩ :=
    insertAfter_decomp rest1 c0 ⟨EXIF_NAME, m⟩ (isAllowed_vp8x hname)
  have hwf2 := wf_insertAfter ⟨EXIF_NAME, m⟩ h1
    ((by decide : wfName EXIF_NAME)) hsp hm
  rw [hins, setFlagCs_cons true hdata] at hw
  refine ⟨by rw [hw], ?_⟩
  rw [hw]
  dsimp only
  have hwf3 : wfWebp ((⟨c0.name, flagByte true e0 :: e1 :: e2 :: e3 :: t⟩
      : WChunk) :: (cs1 ++ (⟨EXIF_NAME, m⟩ : WChunk) :: csB)) := by
    rw [← setFlagCs_cons true hdata]
    exact wf_setFlag hwf2.1 true
  rw [readMetadataW_webpBytes hwf3 hname rfl (and8_or8 e0)
    (fun c hc => hnoex c (by
      rw [← hsp]
      exact List.mem_append_left _ (List.mem_cons_of_mem _ hc)))
    rfl]
  simp [wpadData]

theorem C1_witness :
    (writeMetadataW (webpBytes [vp8xSet]) [1, 2, 3]).1 = .ok () ∧
    readMetadataW (writeMetadataW (webpBytes [vp8xSet]) [1, 2, 3]).2
      = .ok (EXIF_HEADER ++ [1, 2, 3]
          ++ (if ([1, 2, 3] : List Nat).length % 2 = 1
              then [0x00] else [])) :=
  @C1_roundtrip_amended (webpBytes [vp8xSet]) vp8xUnset [] [1, 2, 3]
    0 0 0 0 [0, 0, 0, 0, 0, 0]
    (by decide) (by decide) (by decide) (by decide) (by decide) (by decide)

theorem webpBytes_sizeField (cs : List WChunk) :
    ((webpBytes cs).drop 4).take 4 = leBytes (4 + wtotal cs) := by
  have h1 : webpBytes cs = RIFF_SIGNATURE ++ (leBytes (4 + wtotal cs)
      ++ (WEBP_SIGNATURE ++ wchunksBytes cs)) := by
    simp [webpBytes]
  rw [h1, List.drop_left' (show RIFF_SIGNATURE.length = 4 from rfl),
    List.take_left' (length_leBytes _)]

/-- C6 (corrected).  The claim places the new EXIF chunk before the
first chunk outside the allow list; the insertion loop has already
consumed that chunk when it breaks, so the chunk lands immediately
after the first disallowed chunk (and at end of file when every chunk
is allowed), as insertExifAfterFirstDisallowed states. -/
theorem C6_insertion_point_amended {d : Disk} {c0 : WChunk}
    {rest1 : List WChunk} {m : List Nat} {e0 e1 e2 e3 : Nat} {t : List Nat}
    (hclear : clearMetadataW d = (.ok (), webpBytes (c0 :: rest1)))
    (h1 : wfWebp (c0 :: rest1)) (hname : c0.name = VP8X_NAME)
    (hdata : c0.data = e0 :: e1 :: e2 :: e3 :: t)
    (hm : 12 + wtotal (c0 :: rest1)
        + (8 + wpadLen ⟨EXIF_NAME, m⟩) < 2 ^ 32) :
    writeMetadataW d m = (.ok (), webpBytes (setFlagCs true
        (insertExifAfterFirstDisallowed (c0 :: rest1) ⟨EXIF_NAME, m⟩))) :=
  writeMetadataW_webpBytes_gen hclear h1 hname hdata hm

theorem C6_witness :
    writeMetadataW demoInsert [5] = (.ok (), webpBytes (setFlagCs true
        (insertExifAfterFirstDisallowed
          (vp8xUnset :: [⟨[0x41, 0x41, 0x41, 0x41], [1, 2]⟩,
            ⟨[0x42, 0x42, 0x42, 0x42], [3, 4]⟩])
          ⟨EXIF_NAME, [5]⟩))) :=
  @C6_insertion_point_amended demoInsert vp8xUnset
    [⟨[0x41, 0x41, 0x41, 0x41], [1, 2]⟩, ⟨[0x42, 0x42, 0x42, 0x42], [3, 4]⟩]
    [5] 0 0 0 0 [0, 0, 0, 0, 0, 0]
    (by decide) (by decide) (by decide) (by decide) (by decide)

/-- C7 (confirmed).  After a successful write_metadata on a cleared
extended-format WebP file, the little-endian u32 at byte offset 4 of
the result equals the resulting file length minus 8. -/
theorem C7_size_field_correct {d : Disk} {c0 : WChunk}
    {rest1 : List WChunk} {m : List Nat} {e0 e1 e2 e3 : Nat} {t : List Nat}
    (hclear : clearMetadataW d = (.ok (), webpBytes (c0 :: rest1)))
    (h1 : wfWebp (c0 :: rest1)) (hname : c0.name = VP8X_NAME)
    (hdata : c0.data = e0 :: e1 :: e2 :: e3 :: t)
    (hm : 12 + wtotal (c0 :: rest1)
        + (8 + wpadLen ⟨EXIF_NAME, m⟩) < 2 ^ 32) :
    leU32 (((writeMetadataW d m).2.drop 4).take 4)
      = (writeMetadataW d m).2.length - 8 := by
  rw [writeMetadataW_webpBytes_gen hclear h1 hname hdata hm]
  dsimp only
  obtain ⟨cs1, csB, hins, hsp⟩ :=
    insertAfter_decomp rest1 c0 ⟨EXIF_NAME, m⟩ (isAllowed_vp8x hname)
  have hwf2 := wf_insertAfter ⟨EXIF_NAME, m⟩ h1
    ((by decide : wfName EXIF_NAME)) hsp hm
  rw [hins]
  have hwf3 := wf_setFlag hwf2.1 true
  rw [webpBytes_sizeField, webpBytes_length hwf3.1,
    leU32_leBytes (show 4 + wtotal (setFlagCs true
      (c0 :: (cs1 ++ ⟨EXIF_NAME, m⟩ :: csB))) < 2 ^ 32 from by
        have := hwf3.2; omega)]
  omega

theorem C7_witness :
    leU32 (((writeMetadataW (webpBytes [vp8xSet]) [9]).2.drop 4).take 4)
      = (writeMetadataW (webpBytes [vp8xSet]) [9]).2.length - 8 :=
  @C7_size_field_correct (webpBytes [vp8xSet]) vp8xUnset [] [9]
    0 0 0 0 [0, 0, 0, 0, 0, 0]
    (by decide) (by decide) (by decide) (by decide) (by decide)

/-- C4 (corrected).  The claim says clear_metadata is a successful no-op
on every Simple Format file whose first chunk is VP8.  In the source
only the error message rendered with the header string VP8L is
swallowed; a VP8L-first file is indeed a successful no-op, but a
VP8-first file (fourCC `VP8 ` with trailing space) gets the
first-chunk error back instead of success. -/
theorem C4_clear_simple_format_amended {c0 : WChunk} {rest : List WChunk}
    {c1 : WChunk} {rest' : List WChunk}
    (h : wfWebp (c0 :: rest)) (hname : c0.name = VP8L_NAME)
    (h' : wfWebp (c1 :: rest'))
    (hname' : c1.name = [0x56, 0x50, 0x38, 0x20]) :
    clearMetadataW (webpBytes (c0 :: rest))
      = (.ok (), webpBytes (c0 :: rest)) ∧
    clearMetadataW (webpBytes (c1 :: rest'))
      = (.error (.io .eOther (.firstChunkNotVP8X c1.name)),
         webpBytes (c1 :: rest')) :=
  ⟨clearMetadataW_webpBytes_vp8l h hname,
   clearMetadataW_webpBytes_vp8 h' hname'⟩

theorem C4_witness :
    clearMetadataW demoWebpVP8L = (.ok (), demoWebpVP8L) ∧
    clearMetadataW demoWebpVP8
      = (.error (.io .eOther
          (.firstChunkNotVP8X [0x56, 0x50, 0x38, 0x20])),
         demoWebpVP8) :=
  @C4_clear_simple_format_amended ⟨VP8L_NAME, [1, 2]⟩ []
    ⟨[0x56, 0x50, 0x38, 0x20], [1, 2]⟩ []
    (by decide) (by decide) (by decide) (by decide)

/-- C9 (confirmed).  On an extended-format WebP file carrying an EXIF
chunk with a 5 byte payload, the chunk walker records the even padded
length 6 (it consumes the padding byte), and clear_metadata succeeds
and shrinks the file by exactly 4+4+5+1 = 14 bytes. -/
theorem C9_odd_padding_clear {c0 : WChunk} {pre post : List WChunk}
    {x : WChunk} {d0 d1 d2 d3 : Nat} {t : List Nat}
    (h : wfWebp (c0 :: (pre ++ x :: post)))
    (hname : c0.name = VP8X_NAME)
    (hdata : c0.data = d0 :: d1 :: d2 :: d3 :: t)
    (hflag : d0 &&& 0x08 = 0x08)
    (hpre : ∀ c ∈ pre, lowName c.name ≠ lowName EXIF_NAME)
    (hpost : ∀ c ∈ post, lowName c.name ≠ lowName EXIF_NAME)
    (hx : lowName x.name = lowName EXIF_NAME)
    (hlen : x.data.length = 5) :
    parseWebp (webpBytes (c0 :: (pre ++ x :: post)))
      = .ok ((c0 :: (pre ++ x :: post)).map WChunk.descriptor) ∧
    (WChunk.descriptor x).size = 6 ∧
    (clearMetadataW (webpBytes (c0 :: (pre ++ x :: post)))).1 = .ok () ∧
    (clearMetadataW (webpBytes (c0 :: (pre ++ x :: post)))).2.length + 14
      = (webpBytes (c0 :: (pre ++ x :: post))).length := by
  have hone := clearMetadataW_webpBytes_one h hname hdata hflag hpre
    hpost hx
  have hwfr : wfWebp (c0 :: (pre ++ post)) := by
    constructor
    · intro c hc
      rcases List.mem_cons.mp hc with h1 | h1
      · exact h.1 c (by rw [h1]; simp)
      · rcases List.mem_append.mp h1 with h2 | h2
        · exact h.1 c (List.mem_cons_of_mem _ (List.mem_append_left _ h2))
        · exact h.1 c (List.mem_cons_of_mem _
            (List.mem_append_right _ (List.mem_cons_of_mem _ h2)))
    · have h2 := h.2
      simp only [wtotal_cons, wtotal_append] at h2 ⊢
      omega
  refine ⟨parseWebp_webpBytes h, by simp [WChunk.descriptor, wpadLen, hlen],
    by rw [hone], ?_⟩
  rw [hone]
  dsimp only
  rw [webpBytes_length (wf_setFlag hwfr false).1, webpBytes_length h.1,
    wtotal_setFlag]
  have hp6 : wpadLen x = 6 := by
    simp [wpadLen, hlen]
  simp only [wtotal_cons, wtotal_append]
  omega

theorem C9_witness :
    parseWebp demoWebp
      = .ok ([vp8xSet, exifOdd].map WChunk.descriptor) ∧
    (WChunk.descriptor exifOdd).size = 6 ∧
    (clearMetadataW demoWebp).1 = .ok () ∧
    (clearMetadataW demoWebp).2.length + 14 = demoWebp.length :=
  @C9_odd_padding_clear vp8xSet [] [] exifOdd 8 0 0 0
    [0, 0, 0, 0, 0, 0]
    (by decide) (by decide) (by decide) (by decide) (by decide)
    (by decide) (by decide) (by decide)

theorem set_after (b : Nat) : ∀ (P : List Nat) (d : Nat) (Y : List Nat),
    (P ++ d :: Y).set P.length b = P ++ b :: Y
  | [], _, _ => rfl
  | p :: P, d, Y => congrArg (p :: ·) (set_after b P d Y)

theorem listSet_getD_ne : ∀ (l : List Nat) (n a j : Nat), j ≠ n →
    (l.set n a).getD j 0 = l.getD j 0
  | [], _, _, _, _ => rfl
  | _ :: _, 0, _, 0, h => absurd rfl h
  | _ :: _, 0, _, _ + 1, _ => rfl
  | _ :: _, _ + 1, _, 0, _ => rfl
  | _ :: l, n + 1, a, j + 1, h =>
    listSet_getD_ne l n a j (fun hh => h (by rw [hh]))

theorem flagByte_testBit_self (v : Bool) (b : Nat) :
    (flagByte v b).testBit 3 = v := by
  cases v with
  | true =>
    show (b ||| 8).testBit 3 = true
    rw [Nat.testBit_or, (by decide : Nat.testBit 8 3 = true), Bool.or_true]
  | false =>
    show (b &&& 0xF7).testBit 3 = false
    rw [Nat.testBit_and, (by decide : Nat.testBit 0xF7 3 = false),
      Bool.and_false]

theorem flagByte_testBit_ne (v : Bool) {b : Nat} (hb : b < 256)
    {i : Nat} (hi : i ≠ 3) :
    (flagByte v b).testBit i = b.testBit i := by
  cases v with
  | true =>
    show (b ||| 8).testBit i = b.testBit i
    rw [Nat.testBit_or]
    have h8 : Nat.testBit 8 i = false := by
      rw [show (8 : Nat) = 2 ^ 3 from rfl, Nat.testBit_two_pow]
      simp only [decide_eq_false_iff_not]
      exact fun h => hi h.symm
    rw [h8, Bool.or_false]
  | false =>
    show (b &&& 0xF7).testBit i = b.testBit i
    rw [Nat.testBit_and]
    by_cases hi8 : i < 8
    · have ht : Nat.testBit 0xF7 i = true := by
        interval_cases i
        · decide
        · decide
        · decide
        · exact absurd rfl hi
        · decide
        · decide
        · decide
        · decide
      rw [ht, Bool.and_true]
    · have hpow : (256 : Nat) ≤ 2 ^ i := by
        calc (256 : Nat) = 2 ^ 8 := rfl
          _ ≤ 2 ^ i := Nat.pow_le_pow_right (by omega) (by omega)
      have hbt : b.testBit i = false :=
        Nat.testBit_eq_false_of_lt (by omega)
      have hft : Nat.testBit 0xF7 i = false :=
        Nat.testBit_eq_false_of_lt (by omega)
      rw [hbt, hft, Bool.and_false]

/-- C10 (confirmed).  set_exif_flag on a serialized VP8X-first WebP file
rewrites exactly the flags byte at offset 20 to flagByte v d0: the
operation succeeds, the resulting file is the input with byte 20
replaced, bit 3 of the new byte equals the requested flag value, every
other bit of that byte keeps its previous value, and every byte at an
offset other than 20 is unchanged. -/
theorem C10_set_exif_flag_frame {c0 : WChunk} {rest : List WChunk}
    {d0 d1 d2 d3 : Nat} {t : List Nat} (i j : Nat) (v : Bool)
    (h : wfWebp (c0 :: rest)) (hname : c0.name = VP8X_NAME)
    (hdata : c0.data = d0 :: d1 :: d2 :: d3 :: t)
    (hb : d0 < 256) (hi : i ≠ 3) (hj : j ≠ 20) :
    (setExifFlag (webpBytes (c0 :: rest)) v).1 = .ok () ∧
    (setExifFlag (webpBytes (c0 :: rest)) v).2
      = (webpBytes (c0 :: rest)).set 20 (flagByte v d0) ∧
    (flagByte v d0).testBit 3 = v ∧
    (flagByte v d0).testBit i = d0.testBit i ∧
    ((setExifFlag (webpBytes (c0 :: rest)) v).2).getD j 0
      = (webpBytes (c0 :: rest)).getD j 0 := by
  have hmain := setExifFlag_webpBytes h hname hdata v
  have hn4 : c0.name.length = 4 := by rw [hname]; rfl
  have hB : webpBytes (c0 :: rest) = (RIFF_SIGNATURE
        ++ leBytes (4 + wtotal (c0 :: rest)) ++ WEBP_SIGNATURE
        ++ c0.name ++ leBytes c0.data.length)
      ++ (d0 :: (d1 :: d2 :: d3
        :: ((t ++ if c0.data.length % 2 = 1 then [0x00] else [])
             ++ wchunksBytes rest))) := by
    rw [webpBytes_decomp20 c0 rest]
    simp [wpadData, hdata]
  have hsame : wtotal (⟨c0.name, flagByte v d0 :: d1 :: d2 :: d3 :: t⟩
      :: rest) = wtotal (c0 :: rest) := by
    rw [wtotal_cons, wtotal_cons]
    simp [wpadLen, hdata]
  have hdl : (⟨c0.name, flagByte v d0 :: d1 :: d2 :: d3 :: t⟩
      : WChunk).data.length = c0.data.length := by
    rw [hdata]
    rfl
  have hB2 : webpBytes
        (⟨c0.name, flagByte v d0 :: d1 :: d2 :: d3 :: t⟩ :: rest)
      = (RIFF_SIGNATURE
        ++ leBytes (4 + wtotal (c0 :: rest)) ++ WEBP_SIGNATURE
        ++ c0.name ++ leBytes c0.data.length)
      ++ (flagByte v d0 :: (d1 :: d2 :: d3
        :: ((t ++ if c0.data.length % 2 = 1 then [0x00] else [])
             ++ wchunksBytes rest))) := by
    rw [webpBytes_decomp20, hsame, hdl]
    simp [wpadData, hdata]
  have hset : (setExifFlag (webpBytes (c0 :: rest)) v).2
      = (webpBytes (c0 :: rest)).set 20 (flagByte v d0) := by
    rw [hmain]
    dsimp only
    rw [hB2, hB,
      show (20 : Nat) = (RIFF_SIGNATURE
        ++ leBytes (4 + wtotal (c0 :: rest)) ++ WEBP_SIGNATURE
        ++ c0.name ++ leBytes c0.data.length).length
        from (webpBytes_decomp20_length hn4).symm,
      set_after]
  refine ⟨by rw [hmain], hset, flagByte_testBit_self v d0,
    flagByte_testBit_ne v hb hi, ?_⟩
  rw [hset, listSet_getD_ne _ _ _ _ hj]

theorem C10_witness :
    (setExifFlag demoWebp false).1 = .ok () ∧
    (setExifFlag demoWebp false).2
      = demoWebp.set 20 (flagByte false 8) ∧
    (flagByte false 8).testBit 3 = false ∧
    (flagByte false 8).testBit 0 = Nat.testBit 8 0 ∧
    ((setExifFlag demoWebp false).2).getD 21 0 = demoWebp.getD 21 0 :=
  @C10_set_exif_flag_frame vp8xSet [exifOdd] 8 0 0 0 [0, 0, 0, 0, 0, 0]
    0 21 false (by decide) (by decide) (by decide) (by decide)
    (by decide) (by decide)

/- ------------- the PNG walker on serialized chunks ------------- -/

theorem beFold_beBytes {n : Nat} (h : n < 2 ^ 32) :
    beFold (beBytes n) = n := by
  simp [beFold, beBytes]
  omega

theorem pchunksBytes_nil : pchunksBytes [] = [] := rfl

theorem pchunksBytes_cons (c : PChunk) (cs : List PChunk) :
    pchunksBytes (c :: cs) = pchunkBytes c ++ pchunksBytes cs := by
  simp [pchunksBytes]

theorem pchunkBytes_length {c : PChunk} (h : c.name.length = 4) :
    (pchunkBytes c).length = 12 + c.data.length := by
  simp [pchunkBytes, length_beBytes, h]
  omega

theorem length_le_pchunksBytes (cs : List PChunk) :
    cs.length ≤ (pchunksBytes cs).length := by
  induction cs with
  | nil => simp [pchunksBytes_nil]
  | cons c rest ih =>
    rw [pchunksBytes_cons, List.length_append, List.length_cons]
    have : 1 ≤ (pchunkBytes c).length := by
      simp [pchunkBytes, length_beBytes]
      omega
    omega

theorem pchunksBytes_length {cs : List PChunk}
    (h : ∀ c ∈ cs, wfName c.name) :
    (pchunksBytes cs).length = pSum (cs.map PChunk.descriptor) := by
  induction cs with
  | nil => rfl
  | cons c rest ih =>
    rw [pchunksBytes_cons, List.length_append,
      pchunkBytes_length (h c (by simp)).1,
      ih (fun x hx => h x (by simp [hx]))]
    simp [pSum, PChunk.descriptor]

theorem getNextChunkDescP_serialized {B P R : List Nat} {p : Nat}
    {c : PChunk} (hB : B = P ++ (pchunkBytes c ++ R)) (hp : p = P.length)
    (hwf : wfPChunk c) :
    getNextChunkDescP ⟨B, p⟩
      = .ok ⟨c.name, c.data.length⟩ ⟨B, p + 8 + c.data.length + 4⟩ := by
  have hn4 : c.name.length = 4 := hwf.1.1
  have hB1 : B = P ++ ((beBytes c.data.length ++ c.name)
      ++ (c.data ++ (beBytes (crc32 (c.name ++ c.data)) ++ R))) := by
    rw [hB]
    simp [pchunkBytes]
  have hr1 := fsRead_exact hB1 hp
    (show (8 : Nat) = (beBytes c.data.length ++ c.name).length from by
      simp [length_beBytes, hn4])
  simp only [getNextChunkDescP]
  rw [hr1]
  dsimp only
  rw [if_neg (show ¬ ((8 : Nat) ≠ 8) by omega),
    List.drop_left' (length_beBytes _), List.take_left' (length_beBytes _),
    beFold_beBytes hwf.2.2]
  have hr2 := fsRead_exact (X := c.data)
    (show B = (P ++ beBytes c.data.length ++ c.name)
        ++ (c.data ++ (beBytes (crc32 (c.name ++ c.data)) ++ R)) from by
      rw [hB1]; simp)
    (show p + 8 = (P ++ beBytes c.data.length ++ c.name).length from by
      simp [hp, length_beBytes, hn4])
    rfl
  rw [hr2]
  dsimp only
  rw [if_neg (show ¬ (c.data.length ≠ c.data.length) from by omega)]
  have hr3 := fsRead_exact (X := beBytes (crc32 (c.name ++ c.data)))
    (show B = (P ++ beBytes c.data.length ++ c.name ++ c.data)
        ++ (beBytes (crc32 (c.name ++ c.data)) ++ R) from by
      rw [hB1]; simp)
    (show p + 8 + c.data.length
        = (P ++ beBytes c.data.length ++ c.name ++ c.data).length from by
      simp [hp, length_beBytes, hn4]
      omega)
    (length_beBytes _).symm
  rw [hr3]
  dsimp only
  rw [if_neg (show ¬ ((4 : Nat) ≠ 4) by omega),
    if_neg (show ¬ (beBytes (crc32 (c.name ++ c.data))
      ≠ beBytes (crc32 (c.name ++ c.data))) from by simp),
    validUtf8_ascii (fun b hb => hwf.1.2 b hb)]
  rfl

theorem parsePngLoop_serialized : ∀ (cs1 : List PChunk) (fuel : Nat)
    (B P R : List Nat) (acc : List PngChunk) (e : PChunk),
    B = P ++ (pchunksBytes (cs1 ++ [e]) ++ R) →
    (∀ c ∈ cs1 ++ [e], wfPChunk c) →
    (∀ c ∈ cs1, c.name ≠ IEND_NAME) →
    e.name = IEND_NAME →
    cs1.length < fuel →
    ∃ q, parsePngLoop fuel ⟨B, P.length⟩ acc
      = .ok (acc ++ (cs1 ++ [e]).map PChunk.descriptor) ⟨B, q⟩
  | [], fuel, B, P, R, acc, e => by
    intro hB hwf hno he hfuel
    obtain ⟨f, rfl⟩ : ∃ f, fuel = f + 1 := ⟨fuel - 1, by omega⟩
    have hB1 : B = P ++ (pchunkBytes e ++ R) := by
      rw [hB]
      simp [pchunksBytes_cons, pchunksBytes_nil]
    refine ⟨P.length + 8 + e.data.length + 4, ?_⟩
    simp only [parsePngLoop]
    rw [getNextChunkDescP_serialized hB1 rfl (hwf e (by simp))]
    dsimp only
    rw [if_pos he]
    simp [PChunk.descriptor]
  | c :: cs1, fuel, B, P, R, acc, e => by
    intro hB hwf hno he hfuel
    obtain ⟨f, rfl⟩ : ∃ f, fuel = f + 1 := ⟨fuel - 1, by omega⟩
    have hn4 : c.name.length = 4 := (hwf c (by simp)).1.1
    have hB1 : B = P ++ (pchunkBytes c
        ++ (pchunksBytes (cs1 ++ [e]) ++ R)) := by
      rw [hB, List.cons_append, pchunksBytes_cons]
      simp
    simp only [parsePngLoop]
    rw [getNextChunkDescP_serialized hB1 rfl (hwf c (by simp))]
    dsimp only
    rw [if_neg (hno c (by simp))]
    have hB2 : B = (P ++ pchunkBytes c)
        ++ (pchunksBytes (cs1 ++ [e]) ++ R) := by
      rw [hB1]
      simp
    obtain ⟨q, hq⟩ := parsePngLoop_serialized cs1 f B (P ++ pchunkBytes c)
      R (acc ++ [⟨c.name, c.data.length⟩]) e hB2
      (fun x hx => hwf x (List.mem_cons_of_mem _ hx))
      (fun x hx => hno x (by simp [hx]))
      he (by simp only [List.length_cons] at hfuel; omega)
    rw [show (P ++ pchunkBytes c).length
        = P.length + 8 + c.data.length + 4 from by
      rw [List.length_append, pchunkBytes_length hn4]
      omega] at hq
    refine ⟨q, ?_⟩
    rw [hq]
    simp [PChunk.descriptor]

theorem checkSignatureP_pngBytes (T : List Nat) :
    checkSignatureP (PNG_SIGNATURE ++ T)
      = .ok ⟨PNG_SIGNATURE ++ T, 8⟩ := by
  have hr := fsRead_exact (B := PNG_SIGNATURE ++ T) (P := [])
    (X := PNG_SIGNATURE) (R := T) (by simp)
    (show (0 : Nat) = ([] : List Nat).length from rfl)
    (show (8 : Nat) = PNG_SIGNATURE.length from rfl)
  simp only [checkSignatureP]
  rw [hr]
  dsimp only
  rw [if_neg (by decide :
    ¬ (countMatches PNG_SIGNATURE PNG_SIGNATURE ≠ 8))]

theorem parsePng_pngBytes {cs1 : List PChunk} {e : PChunk}
    (hwf : ∀ c ∈ cs1 ++ [e], wfPChunk c)
    (hno : ∀ c ∈ cs1, c.name ≠ IEND_NAME)
    (he : e.name = IEND_NAME) :
    parsePng (pngBytes (cs1 ++ [e]))
      = .ok ((cs1 ++ [e]).map PChunk.descriptor) := by
  unfold parsePng
  have hd : pngBytes (cs1 ++ [e])
      = PNG_SIGNATURE ++ pchunksBytes (cs1 ++ [e]) := rfl
  rw [hd, checkSignatureP_pngBytes]
  dsimp only
  have hfuel : cs1.length
      < (PNG_SIGNATURE ++ pchunksBytes (cs1 ++ [e])).length + 1 := by
    have h1 := length_le_pchunksBytes (cs1 ++ [e])
    simp only [List.length_append] at h1 ⊢
    omega
  obtain ⟨q, hq⟩ := parsePngLoop_serialized cs1
    ((PNG_SIGNATURE ++ pchunksBytes (cs1 ++ [e])).length + 1)
    (PNG_SIGNATURE ++ pchunksBytes (cs1 ++ [e])) PNG_SIGNATURE []
    [] e (by simp) hwf hno he hfuel
  rw [show (8 : Nat) = PNG_SIGNATURE.length from rfl, hq]
  simp

theorem wfPng_decomp {cs : List PChunk} (h : wfPng cs) :
    ∃ cs1 e, cs = cs1 ++ [e] ∧ (∀ c ∈ cs1 ++ [e], wfPChunk c)
      ∧ (∀ c ∈ cs1, c.name ≠ IEND_NAME) ∧ e.name = IEND_NAME := by
  obtain ⟨hwf, hne, hiff⟩ := h
  have hsplit := List.dropLast_append_getLast hne
  have hpos : 0 < cs.length := List.length_pos.mpr hne
  have hlen : cs.dropLast.length = cs.length - 1 := List.length_dropLast cs
  refine ⟨cs.dropLast, cs.getLast hne, hsplit.symm, ?_, ?_, ?_⟩
  · intro c hc
    rw [hsplit] at hc
    exact hwf c hc
  · intro c hc
    obtain ⟨⟨i, hilt⟩, hget⟩ := List.mem_iff_get.mp hc
    have hilt' : i < cs.length := by omega
    have hgetcs : cs.get ⟨i, hilt'⟩ = c := by
      rw [← hget]
      simp [List.get_eq_getElem, List.getElem_dropLast]
    intro hcname
    have hieq := (hiff ⟨i, hilt'⟩).mp (by rw [hgetcs]; exact hcname)
    simp only at hieq
    omega
  · have hlast : cs.getLast hne = cs.get ⟨cs.length - 1, by omega⟩ :=
      List.getLast_eq_get cs hne
    rw [hlast]
    exact (hiff ⟨cs.length - 1, by omega⟩).mpr rfl

theorem clearLoopP_bytes : ∀ (cs : List PngChunk) (s : FS) (k : Nat),
    (clearLoopP s k cs).bytes = s.bytes
  | [], _, _ => rfl
  | c :: cs, s, k => by
    simp only [clearLoopP]
    by_cases hz : c.name = ZTXT_NAME
    · rw [if_pos hz, clearLoopP_bytes cs]
      rfl
    · rw [if_neg hz, clearLoopP_bytes cs]
      rfl

theorem clearMetadataP_parse_ok {d : Disk} {cs : List PngChunk}
    (h : parsePng d = .ok cs) : clearMetadataP d = (.ok (), d) := by
  have hsig : ∃ q, checkSignatureP d = .ok ⟨d, q⟩ := by
    cases hs : checkSignatureP d with
    | error e =>
      exfalso
      unfold parsePng at h
      rw [hs] at h
      exact Except.noConfusion h
    | ok s =>
      have hb : s.bytes = d := by
        simp only [checkSignatureP] at hs
        split at hs
        · exact Except.noConfusion hs
        · injection hs with h2
          rw [← h2]
          rfl
      refine ⟨s.pos, ?_⟩
      have hseq : s = ⟨d, s.pos⟩ := by
        cases s with
        | mk b p =>
          simp only at hb
          rw [hb]
      exact congrArg Except.ok hseq
  obtain ⟨q, hsig⟩ := hsig
  unfold clearMetadataP
  rw [h]
  dsimp only
  rw [hsig]
  dsimp only
  rw [clearLoopP_bytes]

theorem writeCoreP_pngBytes {h0 : PChunk} {rest : List PChunk}
    (defl : List Nat → List Nat) (m : List Nat)
    (hn4 : h0.name.length = 4)
    (hrne : pchunksBytes rest ≠ [])
    (hlen : RAW_PROFILE_TYPE_EXIF.length + (defl m).length + 8 < 2 ^ 32) :
    writeCoreP defl (pngBytes (h0 :: rest)) h0.data.length m
      = (.ok (), pngBytes (h0 ::
          ⟨ZTXT_NAME, RAW_PROFILE_TYPE_EXIF ++ defl m⟩ :: rest)) := by
  have h23 : RAW_PROFILE_TYPE_EXIF.length = 23 := rfl
  have hB : pngBytes (h0 :: rest)
      = (PNG_SIGNATURE ++ pchunkBytes h0) ++ pchunksBytes rest := by
    simp [pngBytes, pchunksBytes_cons]
  have hseek : (8 : Nat) + h0.data.length + 12
      = (PNG_SIGNATURE ++ pchunkBytes h0).length := by
    rw [List.length_append, pchunkBytes_length hn4]
    rw [show PNG_SIGNATURE.length = 8 from rfl]
    omega
  have hchunklen : ((ZTXT_NAME ++ RAW_PROFILE_TYPE_EXIF ++ defl m)
      ++ beBytes (crc32 (ZTXT_NAME ++ RAW_PROFILE_TYPE_EXIF
        ++ defl m))).length = 31 + (defl m).length := by
    simp [length_beBytes, ZTXT_NAME, h23]
    omega
  have hlf : sub32 (((ZTXT_NAME ++ RAW_PROFILE_TYPE_EXIF ++ defl m)
      ++ beBytes (crc32 (ZTXT_NAME ++ RAW_PROFILE_TYPE_EXIF
        ++ defl m))).length % 2 ^ 32) 8 = 23 + (defl m).length := by
    rw [hchunklen]
    unfold sub32
    omega
  have hrd := fsReadToEnd_exact (X := pchunksBytes rest) hB hseek
  simp only [writeCoreP, fsSeekStart]
  rw [hrd]
  dsimp only
  rw [hlf, hB]
  have hw1 := fsWriteAll_at (P := PNG_SIGNATURE ++ pchunkBytes h0)
    (Y := pchunksBytes rest) (D := beBytes (23 + (defl m).length))
    (by simp [beBytes]) hseek
  rw [hw1]
  simp only [length_beBytes]
  rw [show (PNG_SIGNATURE ++ pchunkBytes h0)
      ++ (beBytes (23 + (defl m).length) ++ (pchunksBytes rest).drop 4)
      = ((PNG_SIGNATURE ++ pchunkBytes h0)
        ++ beBytes (23 + (defl m).length))
        ++ (pchunksBytes rest).drop 4 from
    (List.append_assoc _ _ _).symm]
  have hcne : (ZTXT_NAME ++ RAW_PROFILE_TYPE_EXIF ++ defl m
      ++ beBytes (crc32 (ZTXT_NAME ++ RAW_PROFILE_TYPE_EXIF ++ defl m)))
      ≠ [] := by
    intro hc
    have := congrArg List.length hc
    rw [hchunklen] at this
    simp at this
  have hw2 := fsWriteAll_at
    (P := (PNG_SIGNATURE ++ pchunkBytes h0)
      ++ beBytes (23 + (defl m).length))
    (Y := (pchunksBytes rest).drop 4)
    (D := ZTXT_NAME ++ RAW_PROFILE_TYPE_EXIF ++ defl m
      ++ beBytes (crc32 (ZTXT_NAME ++ RAW_PROFILE_TYPE_EXIF ++ defl m)))
    hcne
    (show 8 + h0.data.length + 12 + 4 = _ from by
      simp [List.length_append, length_beBytes, PNG_SIGNATURE,
        pchunkBytes_length hn4]
      omega)
  rw [hw2]
  simp only [hchunklen]
  rw [show ((PNG_SIGNATURE ++ pchunkBytes h0)
      ++ beBytes (23 + (defl m).length))
      ++ ((ZTXT_NAME ++ RAW_PROFILE_TYPE_EXIF ++ defl m
        ++ beBytes (crc32 (ZTXT_NAME ++ RAW_PROFILE_TYPE_EXIF ++ defl m)))
        ++ ((pchunksBytes rest).drop 4).drop (31 + (defl m).length))
      = (((PNG_SIGNATURE ++ pchunkBytes h0)
        ++ beBytes (23 + (defl m).length))
        ++ (ZTXT_NAME ++ RAW_PROFILE_TYPE_EXIF ++ defl m
          ++ beBytes (crc32 (ZTXT_NAME ++ RAW_PROFILE_TYPE_EXIF
            ++ defl m))))
        ++ ((pchunksBytes rest).drop 4).drop (31 + (defl m).length) from
    (List.append_assoc _ _ _).symm]
  have hw3 := fsWriteAll_at
    (P := ((PNG_SIGNATURE ++ pchunkBytes h0)
      ++ beBytes (23 + (defl m).length))
      ++ (ZTXT_NAME ++ RAW_PROFILE_TYPE_EXIF ++ defl m
        ++ beBytes (crc32 (ZTXT_NAME ++ RAW_PROFILE_TYPE_EXIF
          ++ defl m))))
    (Y := ((pchunksBytes rest).drop 4).drop (31 + (defl m).length))
    (D := pchunksBytes rest) hrne
    (show 8 + h0.data.length + 12 + 4 + (31 + (defl m).length) = _ from by
      simp only [List.length_append, length_beBytes, hchunklen,
        pchunkBytes_length hn4]
      rw [show PNG_SIGNATURE.length = 8 from rfl]
      omega)
  rw [hw3]
  have hz : ((((pchunksBytes rest).drop 4).drop
      (31 + (defl m).length)).drop (pchunksBytes rest).length) = [] := by
    apply List.drop_eq_nil_of_le
    simp [List.length_drop]
  rw [hz, List.append_nil]
  simp [pngBytes, pchunksBytes_cons, pchunkBytes, h23, List.append_assoc]

theorem writeMetadataP_pngBytes {h0 : PChunk} {rest1 : List PChunk}
    {e : PChunk} (defl : List Nat → List Nat) (m : List Nat)
    (hwf : ∀ c ∈ (h0 :: rest1) ++ [e], wfPChunk c)
    (hno : ∀ c ∈ h0 :: rest1, c.name ≠ IEND_NAME)
    (he : e.name = IEND_NAME)
    (hlen : RAW_PROFILE_TYPE_EXIF.length + (defl m).length + 8 < 2 ^ 32) :
    writeMetadataP defl (pngBytes ((h0 :: rest1) ++ [e])) m
      = (.ok (), pngBytes (h0 ::
          ⟨ZTXT_NAME, RAW_PROFILE_TYPE_EXIF ++ defl m⟩
          :: (rest1 ++ [e]))) := by
  have hparse := @parsePng_pngBytes (h0 :: rest1) e hwf hno he
  have hn4 : h0.name.length = 4 := (hwf h0 (by simp)).1.1
  have hrne : pchunksBytes (rest1 ++ [e]) ≠ [] := by
    intro hc
    have h1 := length_le_pchunksBytes (rest1 ++ [e])
    rw [hc] at h1
    simp at h1
  unfold writeMetadataP
  rw [clearMetadataP_parse_ok hparse]
  dsimp only
  rw [hparse]
  simp only [List.cons_append, List.map_cons]
  dsimp only [PChunk.descriptor]
  exact @writeCoreP_pngBytes h0 (rest1 ++ [e]) defl m hn4 hrne hlen

theorem pngConsistent_pngBytes {cs1 : List PChunk} {e : PChunk}
    (hwf : ∀ c ∈ cs1 ++ [e], wfPChunk c)
    (hno : ∀ c ∈ cs1, c.name ≠ IEND_NAME) (he : e.name = IEND_NAME) :
    pngConsistent (pngBytes (cs1 ++ [e])) = true := by
  unfold pngConsistent
  rw [parsePng_pngBytes hwf hno he]
  dsimp only
  rw [show (pngBytes (cs1 ++ [e])).length
      = 8 + (pchunksBytes (cs1 ++ [e])).length from by
    simp [pngBytes, PNG_SIGNATURE]
    omega]
  rw [pchunksBytes_length (fun c hc => (hwf c hc).1)]
  simp

theorem wSum_map_descriptor (cs : List WChunk) :
    wSum (cs.map WChunk.descriptor) = wtotal cs := by
  induction cs with
  | nil => rfl
  | cons c rest ih =>
    simp only [List.map_cons, wSum, wtotal, List.map_cons, List.sum_cons]
      at ih ⊢
    rw [ih]
    simp [WChunk.descriptor]

theorem webpConsistent_webpBytes {cs : List WChunk} (h : wfWebp cs) :
    webpConsistent (webpBytes cs) = true := by
  unfold webpConsistent
  rw [parseWebp_webpBytes h]
  dsimp only
  rw [wSum_map_descriptor, webpBytes_length h.1]
  simp

/-- C2 (corrected).  The blanket invariant fails (see C2_counterexample:
a valid WebP file with two EXIF chunks is mangled by clear_metadata
while it reports success).  The corrected statement: the parse/byte-sum
invariant is preserved by clear_metadata on a WebP file with exactly one
EXIF chunk, by write_metadata on a cleared VP8X-first WebP file, by
clear_metadata_from_png (which succeeds while leaving the PNG
byte-identical, all its writes going through a read-only handle), and by
write_metadata_to_png on a well formed PNG. -/
theorem C2_consistency_amended {c0 : WChunk} {pre post : List WChunk}
    {x : WChunk} {d0 d1 d2 d3 : Nat} {t : List Nat}
    (hW : wfWebp (c0 :: (pre ++ x :: post)))
    (hWname : c0.name = VP8X_NAME)
    (hWdata : c0.data = d0 :: d1 :: d2 :: d3 :: t)
    (hWflag : d0 &&& 0x08 = 0x08)
    (hWpre : ∀ c ∈ pre, lowName c.name ≠ lowName EXIF_NAME)
    (hWpost : ∀ c ∈ post, lowName c.name ≠ lowName EXIF_NAME)
    (hWx : lowName x.name = lowName EXIF_NAME)
    {dw : Disk} {c1 : WChunk} {rest1 : List WChunk} {m : List Nat}
    {e0 e1 e2 e3 : Nat} {u : List Nat}
    (hclear : clearMetadataW dw = (.ok (), webpBytes (c1 :: rest1)))
    (h1 : wfWebp (c1 :: rest1)) (hname1 : c1.name = VP8X_NAME)
    (hdata1 : c1.data = e0 :: e1 :: e2 :: e3 :: u)
    (hm : 12 + wtotal (c1 :: rest1)
        + (8 + wpadLen ⟨EXIF_NAME, m⟩) < 2 ^ 32)
    {dp : Disk} {ps : List PngChunk} (hp : parsePng dp = .ok ps)
    (hpcons : pngConsistent dp = true)
    {h0 : PChunk} {prest : List PChunk} {pe : PChunk}
    (defl : List Nat → List Nat) (mp : List Nat)
    (hPwf : ∀ c ∈ (h0 :: prest) ++ [pe], wfPChunk c)
    (hPno : ∀ c ∈ h0 :: prest, c.name ≠ IEND_NAME)
    (hPe : pe.name = IEND_NAME)
    (hPd : ∀ b ∈ defl mp, b < 256)
    (hPlen : RAW_PROFILE_TYPE_EXIF.length + (defl mp).length + 8
        < 2 ^ 32) :
    ((clearMetadataW (webpBytes (c0 :: (pre ++ x :: post)))).1 = .ok ()
      ∧ webpConsistent
          (clearMetadataW (webpBytes (c0 :: (pre ++ x :: post)))).2
        = true) ∧
    ((writeMetadataW dw m).1 = .ok ()
      ∧ webpConsistent (writeMetadataW dw m).2 = true) ∧
    ((clearMetadataP dp).1 = .ok () ∧ (clearMetadataP dp).2 = dp
      ∧ pngConsistent (clearMetadataP dp).2 = true) ∧
    ((writeMetadataP defl (pngBytes ((h0 :: prest) ++ [pe])) mp).1
        = .ok ()
      ∧ pngConsistent
          (writeMetadataP defl (pngBytes ((h0 :: prest) ++ [pe])) mp).2
        = true) := by
  refine ⟨?_, ?_, ?_, ?_⟩
  · have hone := clearMetadataW_webpBytes_one hW hWname hWdata hWflag
      hWpre hWpost hWx
    have hwfr : wfWebp (c0 :: (pre ++ post)) := by
      constructor
      · intro c hc
        rcases List.mem_cons.mp hc with hq | hq
        · exact hW.1 c (by rw [hq]; simp)
        · rcases List.mem_append.mp hq with h2 | h2
          · exact hW.1 c (List.mem_cons_of_mem _
              (List.mem_append_left _ h2))
          · exact hW.1 c (List.mem_cons_of_mem _
              (List.mem_append_right _ (List.mem_cons_of_mem _ h2)))
      · have h2 := hW.2
        simp only [wtotal_cons, wtotal_append] at h2 ⊢
        omega
    rw [hone]
    exact ⟨rfl, webpConsistent_webpBytes (wf_setFlag hwfr false)⟩
  · have hw := writeMetadataW_webpBytes_gen hclear h1 hname1 hdata1 hm
    obtain ⟨cs1, csB, hins, hsp⟩ :=
      insertAfter_decomp rest1 c1 ⟨EXIF_NAME, m⟩ (isAllowed_vp8x hname1)
    have hwf2 := wf_insertAfter ⟨EXIF_NAME, m⟩ h1
      ((by decide : wfName EXIF_NAME)) hsp hm
    rw [hw, hins]
    exact ⟨rfl, webpConsistent_webpBytes (wf_setFlag hwf2.1 true)⟩
  · have hcl := clearMetadataP_parse_ok hp
    rw [hcl]
    exact ⟨rfl, rfl, hpcons⟩
  · have hwp := writeMetadataP_pngBytes defl mp hPwf hPno hPe hPlen
    rw [hwp]
    refine ⟨rfl, ?_⟩
    have hcons := @pngConsistent_pngBytes
      (h0 :: ⟨ZTXT_NAME, RAW_PROFILE_TYPE_EXIF ++ defl mp⟩ :: prest) pe
      (fun c hc => by
        rcases List.mem_cons.mp hc with hq | hq
        · exact hPwf c (by rw [hq]; simp)
        · rcases List.mem_cons.mp hq with hq2 | hq2
          · rw [hq2]
            refine ⟨(by decide : wfName ZTXT_NAME), ?_, ?_⟩
            · intro b hb
              rcases List.mem_append.mp hb with hb2 | hb2
              · exact (by decide :
                  ∀ q ∈ RAW_PROFILE_TYPE_EXIF, q < 256) b hb2
              · exact hPd b hb2
            · simp only [List.length_append]
              omega
          · rcases List.mem_append.mp hq2 with hq3 | hq3
            · exact hPwf c (List.mem_append_left _
                (List.mem_cons_of_mem _ hq3))
            · exact hPwf c (List.mem_append_right _ hq3))
      (fun c hc => by
        rcases List.mem_cons.mp hc with hq | hq
        · exact hPno c (by rw [hq]; simp)
        · rcases List.mem_cons.mp hq with hq2 | hq2
          · rw [hq2]
            exact (by decide : ZTXT_NAME ≠ IEND_NAME)
          · exact hPno c (List.mem_cons_of_mem _ hq2))
      hPe
    simpa using hcons

theorem C2_witness :
    ((clearMetadataW demoWebp).1 = .ok ()
      ∧ webpConsistent (clearMetadataW demoWebp).2 = true) ∧
    ((writeMetadataW (webpBytes [vp8xSet]) [1, 2, 3]).1 = .ok ()
      ∧ webpConsistent
          (writeMetadataW (webpBytes [vp8xSet]) [1, 2, 3]).2 = true) ∧
    ((clearMetadataP demoPng).1 = .ok ()
      ∧ (clearMetadataP demoPng).2 = demoPng
      ∧ pngConsistent (clearMetadataP demoPng).2 = true) ∧
    ((writeMetadataP (fun _ => [1, 2])
        (pngBytes [ihdrDemo, ztxtDemo, iendDemo]) [7]).1 = .ok ()
      ∧ pngConsistent (writeMetadataP (fun _ => [1, 2])
          (pngBytes [ihdrDemo, ztxtDemo, iendDemo]) [7]).2 = true) :=
  @C2_consistency_amended vp8xSet [] [] exifOdd 8 0 0 0
    [0, 0, 0, 0, 0, 0]
    (by decide) (by decide) (by decide) (by decide) (by decide)
    (by decide) (by decide)
    (webpBytes [vp8xSet]) vp8xUnset [] [1, 2, 3] 0 0 0 0
    [0, 0, 0, 0, 0, 0]
    (by decide) (by decide) (by decide) (by decide) (by decide)
    demoPng [⟨IHDR_NAME, 13⟩, ⟨ZTXT_NAME, 3⟩, ⟨IEND_NAME, 0⟩]
    (by decide) (by decide)
    ihdrDemo [ztxtDemo] iendDemo (fun _ => [1, 2]) [7]
    (by decide) (by decide) (by decide) (by decide) (by decide)

/- ------------- CRC-32 single-bit-flip rejection ------------- -/

theorem crcStep_lt {r : Nat} (h : r < 2 ^ 32) : crcStep r < 2 ^ 32 := by
  unfold crcStep
  split
  · exact Nat.xor_lt_two_pow (by omega) (by norm_num)
  · omega

theorem crcStep_inj {r1 r2 : Nat} (h1 : r1 < 2 ^ 32) (h2 : r2 < 2 ^ 32)
    (he : crcStep r1 = crcStep r2) : r1 = r2 := by
  unfold crcStep at he
  by_cases p1 : r1 % 2 = 1 <;> by_cases p2 : r2 % 2 = 1
  · rw [if_pos p1, if_pos p2] at he
    have hh : r1 / 2 = r2 / 2 := by
      have := congrArg (fun z => z ^^^ 0xEDB88320) he
      simpa [Nat.xor_cancel_right] using this
    omega
  · rw [if_pos p1, if_neg p2] at he
    exfalso
    have hb1 : (r1 / 2).testBit 31 = false :=
      Nat.testBit_eq_false_of_lt (by omega)
    have hb2 : (r2 / 2).testBit 31 = false :=
      Nat.testBit_eq_false_of_lt (by omega)
    have hq := congrArg (fun z => z.testBit 31) he
    simp only [Nat.testBit_xor, hb1, hb2,
      (by decide : Nat.testBit 0xEDB88320 31 = true)] at hq
    simp at hq
  · rw [if_neg p1, if_pos p2] at he
    exfalso
    have hb1 : (r1 / 2).testBit 31 = false :=
      Nat.testBit_eq_false_of_lt (by omega)
    have hb2 : (r2 / 2).testBit 31 = false :=
      Nat.testBit_eq_false_of_lt (by omega)
    have hq := congrArg (fun z => z.testBit 31) he
    simp only [Nat.testBit_xor, hb1, hb2,
      (by decide : Nat.testBit 0xEDB88320 31 = true)] at hq
    simp at hq
  · rw [if_neg p1, if_neg p2] at he
    omega

theorem crcSteps_lt : ∀ (n : Nat) {r : Nat}, r < 2 ^ 32 →
    crcSteps n r < 2 ^ 32
  | 0, _, h => h
  | n + 1, _, h => crcSteps_lt n (crcStep_lt h)

theorem crcSteps_inj : ∀ (n : Nat) {r1 r2 : Nat}, r1 < 2 ^ 32 →
    r2 < 2 ^ 32 → crcSteps n r1 = crcSteps n r2 → r1 = r2
  | 0, _, _, _, _, he => he
  | n + 1, _, _, h1, h2, he =>
    crcStep_inj h1 h2
      (crcSteps_inj n (crcStep_lt h1) (crcStep_lt h2) he)

theorem crcByte_lt {r b : Nat} (hr : r < 2 ^ 32) (hb : b < 2 ^ 32) :
    crcByte r b < 2 ^ 32 :=
  crcSteps_lt 8 (Nat.xor_lt_two_pow hr hb)

theorem crcByte_inj_state {b r1 r2 : Nat} (hb : b < 2 ^ 32)
    (h1 : r1 < 2 ^ 32) (h2 : r2 < 2 ^ 32)
    (he : crcByte r1 b = crcByte r2 b) : r1 = r2 := by
  have hx := crcSteps_inj 8 (Nat.xor_lt_two_pow h1 hb)
    (Nat.xor_lt_two_pow h2 hb) he
  have := congrArg (fun z => z ^^^ b) hx
  simpa [Nat.xor_cancel_right] using this

theorem crcByte_ne_byte {r b1 b2 : Nat} (hr : r < 2 ^ 32)
    (h1 : b1 < 2 ^ 32) (h2 : b2 < 2 ^ 32) (hne : b1 ≠ b2) :
    crcByte r b1 ≠ crcByte r b2 := by
  intro he
  have hx := crcSteps_inj 8 (Nat.xor_lt_two_pow hr h1)
    (Nat.xor_lt_two_pow hr h2) he
  have := congrArg (fun z => r ^^^ z) hx
  simp only [Nat.xor_cancel_left] at this
  exact hne this

theorem crcAbsorb_cons (r b : Nat) (l : List Nat) :
    crcAbsorb r (b :: l) = crcAbsorb (crcByte r b) l := rfl

theorem crcAbsorb_append (r : Nat) (l1 l2 : List Nat) :
    crcAbsorb r (l1 ++ l2) = crcAbsorb (crcAbsorb r l1) l2 := by
  simp [crcAbsorb, List.foldl_append]

theorem crcAbsorb_lt : ∀ (l : List Nat) {r : Nat}, r < 2 ^ 32 →
    (∀ b ∈ l, b < 2 ^ 32) → crcAbsorb r l < 2 ^ 32
  | [], _, hr, _ => hr
  | b :: l, _, hr, hl =>
    crcAbsorb_lt l (crcByte_lt hr (hl b (by simp)))
      (fun x hx => hl x (by simp [hx]))

theorem crcAbsorb_inj_state : ∀ (l : List Nat) {r1 r2 : Nat},
    r1 < 2 ^ 32 → r2 < 2 ^ 32 → (∀ b ∈ l, b < 2 ^ 32) →
    crcAbsorb r1 l = crcAbsorb r2 l → r1 = r2
  | [], _, _, _, _, _, he => he
  | b :: l, _, _, h1, h2, hl, he =>
    crcByte_inj_state (hl b (by simp)) h1 h2
      (crcAbsorb_inj_state l (crcByte_lt h1 (hl b (by simp)))
        (crcByte_lt h2 (hl b (by simp)))
        (fun x hx => hl x (by simp [hx])) he)

theorem crc32_lt {l : List Nat} (hl : ∀ b ∈ l, b < 2 ^ 32) :
    crc32 l < 2 ^ 32 := by
  unfold crc32
  exact Nat.xor_lt_two_pow (crcAbsorb_lt l (by norm_num) hl) (by norm_num)

theorem crc32_single_diff {A : List Nat} {b b' : Nat} {B : List Nat}
    (hA : ∀ q ∈ A, q < 2 ^ 32) (hB : ∀ q ∈ B, q < 2 ^ 32)
    (hb : b < 2 ^ 32) (hb' : b' < 2 ^ 32) (hne : b ≠ b') :
    crc32 (A ++ b :: B) ≠ crc32 (A ++ b' :: B) := by
  intro he
  unfold crc32 at he
  have he2 : crcAbsorb 0xFFFFFFFF (A ++ b :: B)
      = crcAbsorb 0xFFFFFFFF (A ++ b' :: B) := by
    have := congrArg (fun z => z ^^^ 0xFFFFFFFF) he
    simpa [Nat.xor_cancel_right] using this
  rw [crcAbsorb_append, crcAbsorb_append, crcAbsorb_cons,
    crcAbsorb_cons] at he2
  have hR : crcAbsorb 0xFFFFFFFF A < 2 ^ 32 :=
    crcAbsorb_lt A (by norm_num) hA
  have hx := crcAbsorb_inj_state B (crcByte_lt hR hb)
    (crcByte_lt hR hb') hB he2
  exact crcByte_ne_byte hR hb hb' hne hx

theorem beBytes_inj {a b : Nat} (ha : a < 2 ^ 32) (hb : b < 2 ^ 32)
    (h : beBytes a = beBytes b) : a = b := by
  simp only [beBytes, List.cons.injEq, and_true] at h
  omega

theorem getD_append_right : ∀ (P X : List Nat) (j : Nat),
    (P ++ X).getD (P.length + j) 0 = X.getD j 0
  | [], X, j => by simp
  | p :: P, X, j => by
    have h1 : (p :: P).length + j = (P.length + j) + 1 := by
      simp [List.length_cons]
      omega
    rw [h1]
    show (P ++ X).getD (P.length + j) 0 = X.getD j 0
    exact getD_append_right P X j

theorem set_append_right : ∀ (P X : List Nat) (j v : Nat),
    (P ++ X).set (P.length + j) v = P ++ X.set j v
  | [], X, j, v => by simp
  | p :: P, X, j, v => by
    have h1 : (p :: P).length + j = (P.length + j) + 1 := by
      simp [List.length_cons]
      omega
    rw [h1]
    exact congrArg (p :: ·) (set_append_right P X j v)

theorem getD_append_left : ∀ (X R : List Nat) (i : Nat),
    i < X.length → (X ++ R).getD i 0 = X.getD i 0
  | [], _, i, h => by simp at h
  | x :: X, R, 0, _ => rfl
  | x :: X, R, i + 1, h =>
    getD_append_left X R i (by simp at h; omega)

theorem set_append_left : ∀ (X R : List Nat) (i v : Nat),
    i < X.length → (X ++ R).set i v = X.set i v ++ R
  | [], _, i, _, h => by simp at h
  | x :: X, R, 0, v, _ => rfl
  | x :: X, R, i + 1, v, h =>
    congrArg (x :: ·) (set_append_left X R i v (by simp at h; omega))

theorem list_decomp_at : ∀ (l : List Nat) (i : Nat), i < l.length →
    l = l.take i ++ l.getD i 0 :: l.drop (i + 1)
      ∧ ∀ v, l.set i v = l.take i ++ v :: l.drop (i + 1)
  | [], i, h => by simp at h
  | x :: l, 0, _ => ⟨rfl, fun _ => rfl⟩
  | x :: l, i + 1, h => by
    obtain ⟨h1, h2⟩ := list_decomp_at l i (by simp at h; omega)
    constructor
    · show x :: l = x :: (l.take i ++ l.getD i 0 :: l.drop (i + 1))
      rw [← h1]
    · intro v
      show x :: l.set i v = x :: (l.take i ++ v :: l.drop (i + 1))
      rw [h2 v]

theorem getD_set_self : ∀ (l : List Nat) (j v : Nat), j < l.length →
    (l.set j v).getD j 0 = v
  | [], j, _, h => by simp at h
  | x :: l, 0, v, _ => rfl
  | x :: l, j + 1, v, h =>
    getD_set_self l j v (by simp at h; omega)

theorem getD_lt_of_mem_bound {l : List Nat} {i : Nat} {q : Nat}
    (h : i < l.length) (hb : ∀ b ∈ l, b < q) : l.getD i 0 < q := by
  rw [List.getD_eq_getElem l 0 h]
  exact hb _ (List.getElem_mem h)

theorem getNextChunkDescP_flipped {B P R : List Nat} {p : Nat}
    {c : PChunk} {i k : Nat} (hwf : wfPChunk c)
    (hi : i < c.data.length + 4) (hk : k < 8)
    (hB : B = P ++ ((beBytes c.data.length ++ c.name)
      ++ (((c.data ++ beBytes (crc32 (c.name ++ c.data))).set i
          ((c.data ++ beBytes (crc32 (c.name ++ c.data))).getD i 0
            ^^^ 2 ^ k)) ++ R)))
    (hp : p = P.length) :
    getNextChunkDescP ⟨B, p⟩
      = .err (.str .pngChecksum) ⟨B, p + 8 + c.data.length + 4⟩ := by
  have hn4 : c.name.length = 4 := hwf.1.1
  have hk32 : 2 ^ k < 2 ^ 32 := by
    have h1 : (2 : Nat) ^ k ≤ 2 ^ 7 := Nat.pow_le_pow_right (by omega)
      (by omega)
    omega
  have hbytes : ∀ b ∈ c.name ++ c.data, b < 2 ^ 32 := by
    intro b hb
    rcases List.mem_append.mp hb with h' | h'
    · have := hwf.1.2 b h'
      omega
    · have := hwf.2.1 b h'
      omega
  have hC : crc32 (c.name ++ c.data) < 2 ^ 32 := crc32_lt hbytes
  by_cases hcase : i < c.data.length
  · have hgd : (c.data ++ beBytes (crc32 (c.name ++ c.data))).getD i 0
        = c.data.getD i 0 :=
      getD_append_left _ _ i hcase
    have hset : (c.data ++ beBytes (crc32 (c.name ++ c.data))).set i
          (c.data.getD i 0 ^^^ 2 ^ k)
        = c.data.set i (c.data.getD i 0 ^^^ 2 ^ k)
          ++ beBytes (crc32 (c.name ++ c.data)) :=
      set_append_left _ _ i _ hcase
    rw [hgd, hset] at hB
    have hb0 : c.data.getD i 0 < 256 :=
      getD_lt_of_mem_bound hcase hwf.2.1
    have hlenset : (c.data.set i (c.data.getD i 0 ^^^ 2 ^ k)).length
        = c.data.length := List.length_set c.data _ _
    have hr1 := fsRead_exact hB hp
      (show (8 : Nat) = (beBytes c.data.length ++ c.name).length from by
        simp [length_beBytes, hn4])
    simp only [getNextChunkDescP]
    rw [hr1]
    dsimp only
    rw [if_neg (show ¬ ((8 : Nat) ≠ 8) by omega),
      List.drop_left' (length_beBytes _),
      List.take_left' (length_beBytes _), beFold_beBytes hwf.2.2]
    have hr2 := fsRead_exact
      (X := c.data.set i (c.data.getD i 0 ^^^ 2 ^ k))
      (show B = (P ++ beBytes c.data.length ++ c.name)
          ++ (c.data.set i (c.data.getD i 0 ^^^ 2 ^ k)
            ++ (beBytes (crc32 (c.name ++ c.data)) ++ R)) from by
        rw [hB]; simp)
      (show p + 8 = (P ++ beBytes c.data.length ++ c.name).length from by
        simp [hp, length_beBytes, hn4])
      hlenset.symm
    rw [hr2]
    dsimp only
    rw [if_neg (show ¬ (c.data.length ≠ c.data.length) from by omega)]
    have hr3 := fsRead_exact
      (X := beBytes (crc32 (c.name ++ c.data)))
      (show B = (P ++ beBytes c.data.length ++ c.name
          ++ c.data.set i (c.data.getD i 0 ^^^ 2 ^ k))
          ++ (beBytes (crc32 (c.name ++ c.data)) ++ R) from by
        rw [hB]; simp)
      (show p + 8 + c.data.length = (P ++ beBytes c.data.length ++ c.name
          ++ c.data.set i (c.data.getD i 0 ^^^ 2 ^ k)).length from by
        simp [hp, length_beBytes, hn4, List.length_set]
        omega)
      (length_beBytes _).symm
    rw [hr3]
    dsimp only
    rw [if_neg (show ¬ ((4 : Nat) ≠ 4) by omega)]
    obtain ⟨hdec, hsetdec⟩ := list_decomp_at c.data i hcase
    have hxne : c.data.getD i 0 ^^^ 2 ^ k ≠ c.data.getD i 0 := by
      intro hq
      have h1 := congrArg (fun z => c.data.getD i 0 ^^^ z) hq
      simp only [Nat.xor_cancel_left, Nat.xor_self] at h1
      have := Nat.pos_pow_of_pos (n := 2) k (by omega)
      omega
    have hcrcne : crc32 (c.name
          ++ c.data.set i (c.data.getD i 0 ^^^ 2 ^ k))
        ≠ crc32 (c.name ++ c.data) := by
      rw [hsetdec (c.data.getD i 0 ^^^ 2 ^ k)]
      conv_rhs => rw [hdec]
      rw [show c.name ++ (c.data.take i ++ (c.data.getD i 0 ^^^ 2 ^ k)
          :: c.data.drop (i + 1))
          = (c.name ++ c.data.take i) ++ ((c.data.getD i 0 ^^^ 2 ^ k)
            :: c.data.drop (i + 1)) from by simp,
        show c.name ++ (c.data.take i ++ c.data.getD i 0
          :: c.data.drop (i + 1))
          = (c.name ++ c.data.take i) ++ (c.data.getD i 0
            :: c.data.drop (i + 1)) from by simp]
      apply crc32_single_diff
      · intro q hq
        rcases List.mem_append.mp hq with h' | h'
        · have := hwf.1.2 q h'
          omega
        · have := hwf.2.1 q (List.mem_of_mem_take h')
          omega
      · intro q hq
        have := hwf.2.1 q (List.mem_of_mem_drop hq)
        omega
      · exact Nat.xor_lt_two_pow (by omega) hk32
      · omega
      · exact hxne
    rw [if_pos (show beBytes (crc32 (c.name
        ++ c.data.set i (c.data.getD i 0 ^^^ 2 ^ k)))
        ≠ beBytes (crc32 (c.name ++ c.data)) from by
      intro hq
      have hC' : crc32 (c.name
          ++ c.data.set i (c.data.getD i 0 ^^^ 2 ^ k)) < 2 ^ 32 := by
        apply crc32_lt
        intro b hb
        rcases List.mem_append.mp hb with h' | h'
        · have := hwf.1.2 b h'
          omega
        · rcases List.mem_or_eq_of_mem_set h' with h2 | h2
          · have := hwf.2.1 b h2
            omega
          · rw [h2]
            exact Nat.xor_lt_two_pow (by omega) hk32
      exact hcrcne (beBytes_inj hC' hC hq))]
  · obtain ⟨j, hj, rfl⟩ : ∃ j, j < 4 ∧ i = c.data.length + j :=
      ⟨i - c.data.length, by omega, by omega⟩
    have hgd : (c.data ++ beBytes (crc32 (c.name ++ c.data))).getD
          (c.data.length + j) 0
        = (beBytes (crc32 (c.name ++ c.data))).getD j 0 :=
      getD_append_right _ _ j
    have hset : (c.data ++ beBytes (crc32 (c.name ++ c.data))).set
          (c.data.length + j)
          ((beBytes (crc32 (c.name ++ c.data))).getD j 0 ^^^ 2 ^ k)
        = c.data ++ (beBytes (crc32 (c.name ++ c.data))).set j
            ((beBytes (crc32 (c.name ++ c.data))).getD j 0 ^^^ 2 ^ k) :=
      set_append_right _ _ j _
    rw [hgd, hset] at hB
    have hr1 := fsRead_exact hB hp
      (show (8 : Nat) = (beBytes c.data.length ++ c.name).length from by
        simp [length_beBytes, hn4])
    simp only [getNextChunkDescP]
    rw [hr1]
    dsimp only
    rw [if_neg (show ¬ ((8 : Nat) ≠ 8) by omega),
      List.drop_left' (length_beBytes _),
      List.take_left' (length_beBytes _), beFold_beBytes hwf.2.2]
    have hr2 := fsRead_exact (X := c.data)
      (show B = (P ++ beBytes c.data.length ++ c.name)
          ++ (c.data ++ ((beBytes (crc32 (c.name ++ c.data))).set j
            ((beBytes (crc32 (c.name ++ c.data))).getD j 0 ^^^ 2 ^ k)
            ++ R)) from by
        rw [hB]; simp)
      (show p + 8 = (P ++ beBytes c.data.length ++ c.name).length from by
        simp [hp, length_beBytes, hn4])
      rfl
    rw [hr2]
    dsimp only
    rw [if_neg (show ¬ (c.data.length ≠ c.data.length) from by omega)]
    have hr3 := fsRead_exact
      (X := (beBytes (crc32 (c.name ++ c.data))).set j
        ((beBytes (crc32 (c.name ++ c.data))).getD j 0 ^^^ 2 ^ k))
      (show B = (P ++ beBytes c.data.length ++ c.name ++ c.data)
          ++ ((beBytes (crc32 (c.name ++ c.data))).set j
            ((beBytes (crc32 (c.name ++ c.data))).getD j 0 ^^^ 2 ^ k)
            ++ R) from by
        rw [hB]; simp)
      (show p + 8 + c.data.length = (P ++ beBytes c.data.length ++ c.name
          ++ c.data).length from by
        simp [hp, length_beBytes, hn4]
        omega)
      (show (4 : Nat) = ((beBytes (crc32 (c.name ++ c.data))).set j
          ((beBytes (crc32 (c.name ++ c.data))).getD j 0 ^^^ 2 ^ k)).length
        from by
        rw [List.length_set, length_beBytes])
    rw [hr3]
    dsimp only
    rw [if_neg (show ¬ ((4 : Nat) ≠ 4) by omega)]
    have hbne : beBytes (crc32 (c.name ++ c.data))
        ≠ (beBytes (crc32 (c.name ++ c.data))).set j
          ((beBytes (crc32 (c.name ++ c.data))).getD j 0 ^^^ 2 ^ k) := by
      intro hq
      have h1 := congrArg (fun l => l.getD j 0) hq
      dsimp only at h1
      rw [getD_set_self _ j _ (by rw [length_beBytes]; omega)] at h1
      have h2 := congrArg
        (fun z => (beBytes (crc32 (c.name ++ c.data))).getD j 0 ^^^ z) h1
      simp only [Nat.xor_cancel_left, Nat.xor_self] at h2
      have := Nat.pos_pow_of_pos (n := 2) k (by omega)
      omega
    rw [if_pos hbne]

theorem parsePngLoop_error_after : ∀ (csA : List PChunk) (fuel : Nat)
    (B P T : List Nat) (acc : List PngChunk) (s1 : FS),
    B = P ++ (pchunksBytes csA ++ T) →
    (∀ c ∈ csA, wfPChunk c) →
    (∀ c ∈ csA, c.name ≠ IEND_NAME) →
    csA.length < fuel →
    getNextChunkDescP ⟨B, P.length + (pchunksBytes csA).length⟩
      = .err (.str .pngChecksum) s1 →
    ∃ s2, parsePngLoop fuel ⟨B, P.length⟩ acc
      = .err (.str .pngNextChunk) s2
  | [], fuel, B, P, T, acc, s1 => by
    intro hB hwf hno hfuel herr
    obtain ⟨f, rfl⟩ : ∃ f, fuel = f + 1 := ⟨fuel - 1, by omega⟩
    rw [show P.length + (pchunksBytes ([] : List PChunk)).length
        = P.length from by simp [pchunksBytes_nil]] at herr
    refine ⟨s1, ?_⟩
    simp only [parsePngLoop]
    rw [herr]
  | c :: csA, fuel, B, P, T, acc, s1 => by
    intro hB hwf hno hfuel herr
    obtain ⟨f, rfl⟩ : ∃ f, fuel = f + 1 := ⟨fuel - 1, by omega⟩
    have hn4 : c.name.length = 4 := (hwf c (by simp)).1.1
    have hB1 : B = P ++ (pchunkBytes c ++ (pchunksBytes csA ++ T)) := by
      rw [hB, pchunksBytes_cons]
      simp
    simp only [parsePngLoop]
    rw [getNextChunkDescP_serialized hB1 rfl (hwf c (by simp))]
    dsimp only
    rw [if_neg (hno c (by simp))]
    have herr2 : getNextChunkDescP ⟨B, (P ++ pchunkBytes c).length
        + (pchunksBytes csA).length⟩ = .err (.str .pngChecksum) s1 := by
      rw [show (P ++ pchunkBytes c).length + (pchunksBytes csA).length
          = P.length + (pchunksBytes (c :: csA)).length from by
        rw [pchunksBytes_cons, List.length_append, List.length_append]
        omega]
      exact herr
    have hB2 : B = (P ++ pchunkBytes c) ++ (pchunksBytes csA ++ T) := by
      rw [hB1]
      simp
    obtain ⟨s2, hs2⟩ := parsePngLoop_error_after csA f B
      (P ++ pchunkBytes c) T (acc ++ [⟨c.name, c.data.length⟩]) s1 hB2
      (fun x hx => hwf x (by simp [hx]))
      (fun x hx => hno x (by simp [hx]))
      (by simp only [List.length_cons] at hfuel; omega) herr2
    refine ⟨s2, ?_⟩
    rw [show (P ++ pchunkBytes c).length
        = P.length + 8 + c.data.length + 4 from by
      rw [List.length_append, pchunkBytes_length hn4]
      omega] at hs2
    exact hs2

/-- C8 (corrected).  Flipping any single bit inside a chunk's payload or
its 4 byte CRC field of a well formed serialized PNG is detected by the
chunk walker as a checksum mismatch, and parse_png fails on the file -
but parse_png replaces the walker's checksum error by the generic
`Could not read next chunk` message, so the surfaced error is
pngNextChunk, not the checksum error the claim promises. -/
theorem C8_crc_rejection_amended {csA : List PChunk} {c : PChunk}
    {R : List Nat} {i k : Nat}
    (hwfA : ∀ ch ∈ csA, wfPChunk ch) (hwfc : wfPChunk c)
    (hno : ∀ ch ∈ csA, ch.name ≠ IEND_NAME)
    (hi : i < c.data.length + 4) (hk : k < 8) :
    (∃ s, getNextChunkDescP
        ⟨flipBit (PNG_SIGNATURE
            ++ (pchunksBytes csA ++ (pchunkBytes c ++ R)))
          (8 + (pchunksBytes csA).length + (8 + i)) k,
         8 + (pchunksBytes csA).length⟩
      = .err (.str .pngChecksum) s) ∧
    parsePng (flipBit (PNG_SIGNATURE
        ++ (pchunksBytes csA ++ (pchunkBytes c ++ R)))
        (8 + (pchunksBytes csA).length + (8 + i)) k)
      = .error (.str .pngNextChunk) := by
  have hn4 : c.name.length = 4 := hwfc.1.1
  have hWlen : (c.data ++ beBytes (crc32 (c.name ++ c.data))).length
      = c.data.length + 4 := by
    simp [length_beBytes]
  have hflip : flipBit (PNG_SIGNATURE
        ++ (pchunksBytes csA ++ (pchunkBytes c ++ R)))
        (8 + (pchunksBytes csA).length + (8 + i)) k
      = (PNG_SIGNATURE ++ pchunksBytes csA)
        ++ ((beBytes c.data.length ++ c.name)
          ++ ((c.data ++ beBytes (crc32 (c.name ++ c.data))).set i
              ((c.data ++ beBytes (crc32 (c.name ++ c.data))).getD i 0
                ^^^ 2 ^ k) ++ R)) := by
    have hq : 8 + (pchunksBytes csA).length + (8 + i)
        = (PNG_SIGNATURE ++ pchunksBytes csA ++ beBytes c.data.length
          ++ c.name).length + i := by
      simp [length_beBytes, hn4, PNG_SIGNATURE]
      omega
    have hF : PNG_SIGNATURE ++ (pchunksBytes csA ++ (pchunkBytes c ++ R))
        = (PNG_SIGNATURE ++ pchunksBytes csA ++ beBytes c.data.length
            ++ c.name)
          ++ ((c.data ++ beBytes (crc32 (c.name ++ c.data))) ++ R) := by
      simp [pchunkBytes]
    unfold flipBit
    rw [hq, hF, getD_append_right, set_append_right,
      getD_append_left _ _ i (by rw [hWlen]; omega),
      set_append_left _ _ i _ (by rw [hWlen]; omega)]
    simp
  have hBflip : flipBit (PNG_SIGNATURE
        ++ (pchunksBytes csA ++ (pchunkBytes c ++ R)))
        (8 + (pchunksBytes csA).length + (8 + i)) k
      = (PNG_SIGNATURE ++ pchunksBytes csA)
        ++ ((beBytes c.data.length ++ c.name)
          ++ (((c.data ++ beBytes (crc32 (c.name ++ c.data))).set i
              ((c.data ++ beBytes (crc32 (c.name ++ c.data))).getD i 0
                ^^^ 2 ^ k)) ++ R)) := hflip
  have hpos : 8 + (pchunksBytes csA).length
      = (PNG_SIGNATURE ++ pchunksBytes csA).length := by
    simp [PNG_SIGNATURE]
    omega
  have herr := getNextChunkDescP_flipped hwfc hi hk hBflip hpos
  refine ⟨⟨⟨flipBit (PNG_SIGNATURE
      ++ (pchunksBytes csA ++ (pchunkBytes c ++ R)))
      (8 + (pchunksBytes csA).length + (8 + i)) k,
      8 + (pchunksBytes csA).length + 8 + c.data.length + 4⟩, herr⟩, ?_⟩
  unfold parsePng
  have hsig : flipBit (PNG_SIGNATURE
        ++ (pchunksBytes csA ++ (pchunkBytes c ++ R)))
        (8 + (pchunksBytes csA).length + (8 + i)) k
      = PNG_SIGNATURE ++ (pchunksBytes csA
        ++ ((beBytes c.data.length ++ c.name)
          ++ (((c.data ++ beBytes (crc32 (c.name ++ c.data))).set i
              ((c.data ++ beBytes (crc32 (c.name ++ c.data))).getD i 0
                ^^^ 2 ^ k)) ++ R))) := by
    rw [hflip]
    simp
  rw [hsig, checkSignatureP_pngBytes]
  dsimp only
  have hfuel : csA.length < (PNG_SIGNATURE ++ (pchunksBytes csA
      ++ ((beBytes c.data.length ++ c.name)
        ++ (((c.data ++ beBytes (crc32 (c.name ++ c.data))).set i
            ((c.data ++ beBytes (crc32 (c.name ++ c.data))).getD i 0
              ^^^ 2 ^ k)) ++ R)))).length + 1 := by
    have h1 := length_le_pchunksBytes csA
    simp only [List.length_append]
    omega
  have herr2 := herr
  rw [hsig] at herr2
  obtain ⟨s2, hs2⟩ := parsePngLoop_error_after csA
    ((PNG_SIGNATURE ++ (pchunksBytes csA
      ++ ((beBytes c.data.length ++ c.name)
        ++ (((c.data ++ beBytes (crc32 (c.name ++ c.data))).set i
            ((c.data ++ beBytes (crc32 (c.name ++ c.data))).getD i 0
              ^^^ 2 ^ k)) ++ R)))).length + 1)
    (PNG_SIGNATURE ++ (pchunksBytes csA
      ++ ((beBytes c.data.length ++ c.name)
        ++ (((c.data ++ beBytes (crc32 (c.name ++ c.data))).set i
            ((c.data ++ beBytes (crc32 (c.name ++ c.data))).getD i 0
              ^^^ 2 ^ k)) ++ R))))
    PNG_SIGNATURE
    ((beBytes c.data.length ++ c.name)
      ++ (((c.data ++ beBytes (crc32 (c.name ++ c.data))).set i
          ((c.data ++ beBytes (crc32 (c.name ++ c.data))).getD i 0
            ^^^ 2 ^ k)) ++ R))
    [] ⟨PNG_SIGNATURE ++ (pchunksBytes csA
      ++ ((beBytes c.data.length ++ c.name)
        ++ (((c.data ++ beBytes (crc32 (c.name ++ c.data))).set i
            ((c.data ++ beBytes (crc32 (c.name ++ c.data))).getD i 0
              ^^^ 2 ^ k)) ++ R))),
      8 + (pchunksBytes csA).length + 8 + c.data.length + 4⟩
    (by simp) hwfA hno hfuel herr2
  rw [show (8 : Nat) = PNG_SIGNATURE.length from rfl, hs2]

theorem C8_witness :
    parsePng (flipBit (PNG_SIGNATURE ++ (pchunksBytes [ihdrDemo]
        ++ (pchunkBytes ztxtDemo ++ pchunkBytes iendDemo)))
        (8 + (pchunksBytes [ihdrDemo]).length + (8 + 0)) 0)
      = .error (.str .pngNextChunk) :=
  (@C8_crc_rejection_amended [ihdrDemo] ztxtDemo (pchunkBytes iendDemo)
    0 0 (by decide) (by decide) (by decide) (by decide) (by decide)).2
